import Mathlib

/-!
# Jacobi grid relaxation (`laba_6/cpu/cpu.cpp`)

A shallow embedding of the solver in `src/laba_6/cpu/cpu.cpp`.

Modelling conventions.

* A `double` is read as an exact rational number: rounding, infinities and NaN
  are not modelled.  `fmax` is `max`, `fabs` is the absolute value.
* A heap buffer `double[]` is a map from the flat offset to the stored value.
  What `new double[...]` leaves in the buffer is arbitrary; it is a parameter
  of the run.
* `matrixSize` is a natural number (a negative `int` size has no defined
  behaviour in the program); `mainProgram` alone takes the `int` as parsed and
  tells apart the sizes for which the run is defined.  The loop bound `size - 1`, an `int`, is compared
  with a `size_t` counter and therefore wraps around for `size = 0`.  Offsets
  written with `size - 1` use truncated subtraction; they are the program's
  offsets for `size ≥ 1` (for `size = 0` the program indexes at `-1`).
  For `1 ≤ size ≤ INT_MAX` no offset `i * size + j` of the loops overflows
  `size_t`, so offsets are plain natural numbers.
* `iteration` is a natural number: it starts at `0`, grows by one per pass and
  stays below 10,000,000, so the `int` never overflows.
* The two raw pointers `previousMatrix` / `updatedMatrix` are handles naming
  one of the two owned buffers.
* The `acc parallel loop` regions are executed in index order.
-/

namespace Parall

/-- A heap buffer of doubles, addressed by flat offset. -/
abbrev Buffer := Nat → ℚ

/-- Value of the `int` expression `size - 1` after its conversion to `size_t`
in the loop tests `i < size - 1`. -/
def loopBound (size : Nat) : Nat :=
  if size = 0 then 2 ^ 64 - 1 else size - 1

/-- The loop `for (size_t i = lo; i < hi; i++) st = body i st`. -/
def forLoop {σ : Type} (lo hi : Nat) (body : Nat → σ → σ) (st : σ) : σ :=
  (List.range' lo (hi - lo)).foldl (fun acc i => body i acc) st

/-- Source: `linearInterpolation` (cpu.cpp:13-15). -/
def linearInterpolation (x x1 y1 x2 y2 : ℚ) : ℚ :=
  y1 + ((x - x1) * (y2 - y1) / (x2 - x1))

/-- One pass of the loop body of `initializeMatrix` (cpu.cpp:46-49): four
stores, each reading two corner cells of the buffer as it is at that moment. -/
def initializeEdgeStep (size i : Nat) (matrix : Buffer) : Buffer :=
  let m1 := Function.update matrix (0 * size + i)
    (linearInterpolation i 0 (matrix 0) ((size : ℚ) - 1) (matrix (size - 1)))
  let m2 := Function.update m1 (i * size + 0)
    (linearInterpolation i 0 (m1 0) ((size : ℚ) - 1) (m1 ((size - 1) * size)))
  let m3 := Function.update m2 (i * size + (size - 1))
    (linearInterpolation i 0 (m2 (size - 1)) ((size : ℚ) - 1)
      (m2 ((size - 1) * size + (size - 1))))
  Function.update m3 ((size - 1) * size + i)
    (linearInterpolation i 0 (m3 ((size - 1) * size)) ((size : ℚ) - 1)
      (m3 ((size - 1) * size + (size - 1))))

/-- Source: `initializeMatrix` (cpu.cpp:39-51). -/
def initializeMatrix (matrix : Buffer) (size : Nat) : Buffer :=
  let m0 := Function.update matrix 0 10
  let m1 := Function.update m0 (size - 1) 20
  let m2 := Function.update m1 ((size - 1) * size + (size - 1)) 30
  let m3 := Function.update m2 ((size - 1) * size) 20
  forLoop 1 (loopBound size) (initializeEdgeStep size) m3

/-- Which owned buffer a raw `double*` points into. -/
inductive Ptr where
  | current
  | new
  deriving DecidableEq, Repr

/-- The variables of `main` that the iteration loop reads or writes, together
with the progress lines printed so far (iteration number, error). -/
structure State where
  currentMatrix : Buffer
  newMatrix : Buffer
  previousMatrix : Ptr
  updatedMatrix : Ptr
  error : ℚ
  iteration : Nat
  log : List (Nat × ℚ)

/-- Load `p[k]`. -/
def State.read (s : State) (p : Ptr) (k : Nat) : ℚ :=
  match p with
  | Ptr.current => s.currentMatrix k
  | Ptr.new => s.newMatrix k

/-- Store `p[k] = v`. -/
def State.write (s : State) (p : Ptr) (k : Nat) (v : ℚ) : State :=
  match p with
  | Ptr.current => { s with currentMatrix := Function.update s.currentMatrix k v }
  | Ptr.new => { s with newMatrix := Function.update s.newMatrix k v }

/-- The assignment of cpu.cpp:102 for one pair `(i, j)`. -/
def relaxCell (matrixSize i j : Nat) (s : State) : State :=
  s.write s.updatedMatrix (i * matrixSize + j)
    (0.25 * (s.read s.previousMatrix (i * matrixSize + j + 1)
      + s.read s.previousMatrix (i * matrixSize + j - 1)
      + s.read s.previousMatrix ((i - 1) * matrixSize + j)
      + s.read s.previousMatrix ((i + 1) * matrixSize + j)))

/-- The relaxation loop nest (cpu.cpp:99-104). -/
def relaxation (matrixSize : Nat) (s : State) : State :=
  forLoop 1 (loopBound matrixSize)
    (fun i st => forLoop 1 (loopBound matrixSize) (fun j st2 => relaxCell matrixSize i j st2) st) s

/-- The reduction loop nest (cpu.cpp:107-115): starts from `error = 0.0` and
folds `fmax(error, fabs(updated[k] - previous[k]))` over the interior. -/
def errorReduction (matrixSize : Nat) (s : State) : ℚ :=
  forLoop 1 (loopBound matrixSize)
    (fun i e => forLoop 1 (loopBound matrixSize)
      (fun j e2 => max e2 |s.read s.updatedMatrix (i * matrixSize + j)
        - s.read s.previousMatrix (i * matrixSize + j)|) e) 0

/-- The convergence check (cpu.cpp:106-117): runs the reduction and prints a
progress line when `(iteration + 1) % 10000 == 0`. -/
def convergenceCheck (matrixSize : Nat) (s : State) : State :=
  if (s.iteration + 1) % 10000 = 0 then
    { s with error := errorReduction matrixSize s,
             log := s.log ++ [(s.iteration + 1, errorReduction matrixSize s)] }
  else s

/-- The pointer exchange of cpu.cpp:120-122. -/
def swapPointers (s : State) : State :=
  let temp := s.previousMatrix
  let s1 := { s with previousMatrix := s.updatedMatrix }
  { s1 with updatedMatrix := temp }

/-- One pass of the `while` body (cpu.cpp:99-124). -/
def loopBody (matrixSize : Nat) (s : State) : State :=
  let s1 := relaxation matrixSize s
  let s2 := convergenceCheck matrixSize s1
  let s3 := swapPointers s2
  { s3 with iteration := s3.iteration + 1 }

/-- The `while` condition (cpu.cpp:98). -/
def loopCondition (accuracy : ℚ) (maxIterations : Int) (s : State) : Prop :=
  (s.iteration : Int) < maxIterations ∧ s.iteration < 10000000 ∧ s.error > accuracy

instance (accuracy : ℚ) (maxIterations : Int) (s : State) :
    Decidable (loopCondition accuracy maxIterations s) := by
  unfold loopCondition
  exact inferInstance

/-- The `while` loop of cpu.cpp:98-125.  The recursion is justified by the
test `iteration < 10000000` and the single `iteration++` of the body. -/
def whileLoop (matrixSize : Nat) (accuracy : ℚ) (maxIterations : Int) (s : State) : State :=
  if loopCondition accuracy maxIterations s then
    whileLoop matrixSize accuracy maxIterations (loopBody matrixSize s)
  else s
termination_by 10000000 - s.iteration
decreasing_by
  rename_i hcond
  have keep : ∀ (l : List Nat) (f : Nat → State → State),
      (∀ i st, (f i st).iteration = st.iteration) →
      ∀ st, (l.foldl (fun acc i => f i acc) st).iteration = st.iteration := by
    intro l f hf
    induction l with
    | nil => intro st; rfl
    | cons a t ih => intro st; rw [List.foldl_cons, ih, hf]
  have hcell : ∀ i j st, (relaxCell matrixSize i j st).iteration = st.iteration := by
    intro i j st
    unfold relaxCell State.write
    cases st.updatedMatrix <;> rfl
  have hrelax : (relaxation matrixSize s).iteration = s.iteration := by
    unfold relaxation forLoop
    apply keep
    intro i st
    apply keep
    intro j st2
    exact hcell i j st2
  have hbody : (loopBody matrixSize s).iteration = s.iteration + 1 := by
    rw [← hrelax]
    unfold loopBody convergenceCheck swapPointers
    dsimp only
    split <;> rfl
  have hlt : s.iteration < 10000000 := hcond.2.1
  rw [hbody]
  omega

/-- The state of `main` on entry to the loop (cpu.cpp:80-90); `rawCurrent` and
`rawNew` are the contents of the two fresh allocations. -/
def initialState (matrixSize : Nat) (rawCurrent rawNew : Buffer) : State :=
  { currentMatrix := initializeMatrix rawCurrent matrixSize
    newMatrix := initializeMatrix rawNew matrixSize
    previousMatrix := Ptr.new
    updatedMatrix := Ptr.current
    error := 1.0
    iteration := 0
    log := [] }

/-- The solve performed by `main`: initialisation followed by the loop. -/
def solve (matrixSize : Nat) (accuracy : ℚ) (maxIterations : Int)
    (rawCurrent rawNew : Buffer) : State :=
  whileLoop matrixSize accuracy maxIterations (initialState matrixSize rawCurrent rawNew)

/-- The buffer passed to `saveMatrixToFile` (cpu.cpp:143): always the owner
`currentMatrix`. -/
def savedMatrix (s : State) : Buffer := s.currentMatrix

/-- The buffer that the most recent relaxation pass stored into: after the
exchange of cpu.cpp:120-122 it is the one `previousMatrix` points to. -/
def lastWritten (s : State) : Buffer := s.read s.previousMatrix

/-- A concrete state used to instantiate the theorems: distinct contents in
the two buffers, pointers as on entry to the loop. -/
def sampleState : State :=
  { currentMatrix := fun k => (k : ℚ)
    newMatrix := fun k => (k : ℚ) * k
    previousMatrix := Ptr.new
    updatedMatrix := Ptr.current
    error := 1.0
    iteration := 0
    log := [] }

/-- Closed form of the four interpolations of `initializeEdgeStep`, by row and
column: rows `0` and `size - 1` run from 10 to 20 and from 20 to 30, columns
`0` and `size - 1` likewise.  Used to state the lemmas on `initializeMatrix`. -/
def edgeValue (size r c : Nat) : ℚ :=
  if r = 0 then 10 + (c : ℚ) * 10 / ((size : ℚ) - 1)
  else if r = size - 1 then 20 + (c : ℚ) * 10 / ((size : ℚ) - 1)
  else if c = 0 then 10 + (r : ℚ) * 10 / ((size : ℚ) - 1)
  else 20 + (r : ℚ) * 10 / ((size : ℚ) - 1)

/-- The error that the convergence check of pass `k` (`k ≥ 1`) computes in a
run that has not stopped before: the reduction applied to the state left by
the relaxation of pass `k`. -/
def checkError (matrixSize : Nat) (rawCurrent rawNew : Buffer) (k : Nat) : ℚ :=
  errorReduction matrixSize
    (relaxation matrixSize ((loopBody matrixSize)^[k - 1] (initialState matrixSize rawCurrent rawNew)))

/-- How `main` ends (cpu.cpp:53-148): `usage` is the `--help` branch
(cpu.cpp:67-70: the option description is printed and `main` returns 1);
`finished s` is a run through allocation, `initializeMatrix`, the loop and
`saveMatrixToFile` to `return 0`, with `s` the state after the loop;
`undefinedBehaviour` is a run that leaves defined behaviour while the buffers
are set up: the `int` product `matrixSize * matrixSize` of cpu.cpp:83-84
overflows, or `initializeMatrix` stores outside the allocation (`matrix[0]` of
a zero-length array, `matrix[size - 1]` with `size ≤ 0`, cpu.cpp:40-43). -/
inductive Outcome where
  | usage
  | finished (s : State)
  | undefinedBehaviour

/-- Source: `main` (cpu.cpp:53-148) as a function of the parsed options.  The
only test the program makes on the options is `vm.count("help")`.  The size is
the `int` read at cpu.cpp:72.  For `1 ≤ size` with `size * size ≤ INT_MAX`
(that is, `size ≤ 46340`) each allocation has `size * size` slots, the stores
of `initializeMatrix` and of the loop lie inside them, and the run is `solve`
on that size.  For every other size the run has no defined behaviour: the
product overflows `int`, or the first stores of `initializeMatrix` fall outside
the allocation.  The two allocations themselves are taken to succeed. -/
def mainProgram (help : Bool) (matrixSize : Int) (accuracy : ℚ) (maxIterations : Int)
    (rawCurrent rawNew : Buffer) : Outcome :=
  if help then Outcome.usage
  else if 1 ≤ matrixSize ∧ matrixSize * matrixSize ≤ 2147483647 then
    Outcome.finished (solve matrixSize.toNat accuracy maxIterations rawCurrent rawNew)
  else Outcome.undefinedBehaviour

/-- The transition rule in the order the specification words it (section 4.4):
run the relaxation step; increment the iteration counter; swap the
previous/updated roles; if the counter is a multiple of the check interval
(10,000), run the convergence monitor on the buffers as they now stand, update
the error and emit the progress line. -/
def specTransition (matrixSize : Nat) (s : State) : State :=
  let s1 := relaxation matrixSize s
  let s2 := { s1 with iteration := s1.iteration + 1 }
  let s3 := swapPointers s2
  if s3.iteration % 10000 = 0 then
    { s3 with error := errorReduction matrixSize s3,
              log := s3.log ++ [(s3.iteration, errorReduction matrixSize s3)] }
  else s3

/-- The offset stored to by the assignment of cpu.cpp:102 for the pair
`(i, j)`; the reduction (cpu.cpp:113) loads the same offset from both buffers. -/
def relaxCellWrite (matrixSize i j : Nat) : Nat := i * matrixSize + j

/-- The four offsets loaded by the assignment of cpu.cpp:102, in source order. -/
def relaxCellReads (matrixSize i j : Nat) : List Nat :=
  [i * matrixSize + j + 1, i * matrixSize + j - 1, (i - 1) * matrixSize + j,
    (i + 1) * matrixSize + j]

/-- The grid `g(r, c) = 10 + 10 * (r + c) / (size - 1)` as a buffer, the row
and column of an offset `k` being `k / size` and `k % size`. -/
def linearGrid (size : Nat) : Buffer :=
  fun k => 10 + 10 * (((k / size : Nat) : ℚ) + ((k % size : Nat) : ℚ)) / ((size : ℚ) - 1)

/-! ## Loops -/

theorem loopBound_of_pos {size : Nat} (h : 1 ≤ size) : loopBound size = size - 1 := by
  unfold loopBound
  rw [if_neg (by omega)]

theorem mem_loopRange {lo hi i : Nat} (h : i ∈ List.range' lo (hi - lo)) : lo ≤ i ∧ i < hi := by
  rw [List.mem_range'_1] at h
  omega

theorem mem_loopRange_of {lo hi i : Nat} (h1 : lo ≤ i) (h2 : i < hi) :
    i ∈ List.range' lo (hi - lo) := by
  rw [List.mem_range'_1]
  omega

theorem foldl_invariant {σ ι : Type} (P : σ → Prop) (body : ι → σ → σ) (l : List ι)
    (hstep : ∀ i ∈ l, ∀ st, P st → P (body i st)) (st : σ) (h0 : P st) :
    P (l.foldl (fun acc i => body i acc) st) := by
  induction l generalizing st with
  | nil => exact h0
  | cons a t ih =>
    rw [List.foldl_cons]
    apply ih
    · intro i hi st2 h2
      exact hstep i (List.mem_cons_of_mem a hi) st2 h2
    · exact hstep a (List.mem_cons_self a t) st h0

theorem forLoop_invariant {σ : Type} (P : σ → Prop) (lo hi : Nat) (body : Nat → σ → σ)
    (hstep : ∀ i, lo ≤ i → i < hi → ∀ st, P st → P (body i st)) (st : σ) (h0 : P st) :
    P (forLoop lo hi body st) := by
  unfold forLoop
  apply foldl_invariant P body _ _ st h0
  intro i hi st2 h2
  exact hstep i (mem_loopRange hi).1 (mem_loopRange hi).2 st2 h2

/-- A fold of steps each of which overwrites the cells selected by `W i` with
the values `V` (cells are observed through `get`), and keeps `G`. -/
theorem foldl_overwrite {σ ι : Type} (G : σ → Prop) (get : σ → Nat → ℚ) (step : ι → σ → σ)
    (W : ι → Nat → Prop) (V : Nat → ℚ) (l : List ι)
    (hstep : ∀ i ∈ l, ∀ st, G st → G (step i st)
      ∧ (∀ k, W i k → get (step i st) k = V k)
      ∧ (∀ k, ¬ W i k → get (step i st) k = get st k))
    (st : σ) (h0 : G st) :
    G (l.foldl (fun acc i => step i acc) st)
      ∧ (∀ k, (∃ i ∈ l, W i k) → get (l.foldl (fun acc i => step i acc) st) k = V k)
      ∧ (∀ k, (∀ i ∈ l, ¬ W i k) → get (l.foldl (fun acc i => step i acc) st) k = get st k) := by
  induction l generalizing st with
  | nil =>
    refine ⟨h0, ?_, ?_⟩
    · rintro k ⟨i, hi, -⟩
      cases hi
    · intro k _
      rfl
  | cons a t ih =>
    rw [List.foldl_cons]
    obtain ⟨hG, hW, hN⟩ := hstep a (List.mem_cons_self a t) st h0
    obtain ⟨ihG, ihW, ihN⟩ := ih (fun i hi => hstep i (List.mem_cons_of_mem a hi)) (step a st) hG
    refine ⟨ihG, ?_, ?_⟩
    · rintro k ⟨i, hi, hik⟩
      by_cases hlater : ∃ i2 ∈ t, W i2 k
      · exact ihW k hlater
      · have hnone : ∀ i2 ∈ t, ¬ W i2 k := fun i2 h2 hw => hlater ⟨i2, h2, hw⟩
        rw [ihN k hnone]
        rcases List.mem_cons.mp hi with rfl | hit
        · exact hW k hik
        · exact absurd hik (hnone i hit)
    · intro k hk
      rw [ihN k (fun i hi => hk i (List.mem_cons_of_mem a hi))]
      exact hN k (hk a (List.mem_cons_self a t))

/-! ## Flat offsets -/

theorem cell_eq_iff {n r c r2 c2 : Nat} (hc : c < n) (hc2 : c2 < n) :
    r * n + c = r2 * n + c2 ↔ r = r2 ∧ c = c2 := by
  constructor
  · intro h
    have hpos : 0 < n := by omega
    have h1 : (r * n + c) / n = r := by
      rw [Nat.mul_comm, Nat.mul_add_div hpos, Nat.div_eq_of_lt hc, Nat.add_zero]
    have h2 : (r2 * n + c2) / n = r2 := by
      rw [Nat.mul_comm, Nat.mul_add_div hpos, Nat.div_eq_of_lt hc2, Nat.add_zero]
    have hr : r = r2 := by rw [← h1, ← h2, h]
    subst hr
    exact ⟨rfl, Nat.add_left_cancel h⟩
  · rintro ⟨rfl, rfl⟩
    rfl

theorem row_above (n i j : Nat) (hi : 1 ≤ i) : (i - 1) * n + j = i * n + j - n := by
  obtain ⟨i2, rfl⟩ : ∃ i2, i = i2 + 1 := ⟨i - 1, by omega⟩
  rw [Nat.add_sub_cancel, Nat.succ_mul]
  omega

theorem row_below (n i j : Nat) : (i + 1) * n + j = i * n + j + n := by
  rw [Nat.succ_mul]
  omega

/-! ## Loads and stores -/

theorem read_write (s : State) (p q : Ptr) (k k2 : Nat) (v : ℚ) :
    (s.write p k v).read q k2 = if q = p ∧ k2 = k then v else s.read q k2 := by
  cases p <;> cases q <;> simp [State.write, State.read, Function.update_apply]

theorem write_fields (s : State) (p : Ptr) (k : Nat) (v : ℚ) :
    (s.write p k v).previousMatrix = s.previousMatrix
      ∧ (s.write p k v).updatedMatrix = s.updatedMatrix
      ∧ (s.write p k v).error = s.error
      ∧ (s.write p k v).iteration = s.iteration
      ∧ (s.write p k v).log = s.log := by
  cases p <;> exact ⟨rfl, rfl, rfl, rfl, rfl⟩

/-! ## The relaxation pass -/

/-- One store of the relaxation pass, seen from a state `st` that has the
pointers of `s` and the same contents as `s` behind `previousMatrix`. -/
theorem relaxCell_step (n i j : Nat) (hi : 1 ≤ i) (s st : State)
    (hne : s.previousMatrix ≠ s.updatedMatrix)
    (hG : st.previousMatrix = s.previousMatrix ∧ st.updatedMatrix = s.updatedMatrix
      ∧ st.error = s.error ∧ st.iteration = s.iteration ∧ st.log = s.log
      ∧ ∀ k, st.read s.previousMatrix k = s.read s.previousMatrix k) :
    ((relaxCell n i j st).previousMatrix = s.previousMatrix
      ∧ (relaxCell n i j st).updatedMatrix = s.updatedMatrix
      ∧ (relaxCell n i j st).error = s.error ∧ (relaxCell n i j st).iteration = s.iteration
      ∧ (relaxCell n i j st).log = s.log
      ∧ ∀ k, (relaxCell n i j st).read s.previousMatrix k = s.read s.previousMatrix k)
    ∧ (∀ k, k = i * n + j → (relaxCell n i j st).read s.updatedMatrix k
        = 0.25 * (s.read s.previousMatrix (k + 1) + s.read s.previousMatrix (k - 1)
          + s.read s.previousMatrix (k - n) + s.read s.previousMatrix (k + n)))
    ∧ (∀ k, ¬ k = i * n + j →
        (relaxCell n i j st).read s.updatedMatrix k = st.read s.updatedMatrix k) := by
  obtain ⟨hp, hu, he, hit, hl, hread⟩ := hG
  have hf := write_fields st st.updatedMatrix (i * n + j)
    (0.25 * (st.read st.previousMatrix (i * n + j + 1)
      + st.read st.previousMatrix (i * n + j - 1)
      + st.read st.previousMatrix ((i - 1) * n + j)
      + st.read st.previousMatrix ((i + 1) * n + j)))
  refine ⟨⟨?_, ?_, ?_, ?_, ?_, ?_⟩, ?_, ?_⟩
  · exact hf.1.trans hp
  · exact hf.2.1.trans hu
  · exact hf.2.2.1.trans he
  · exact hf.2.2.2.1.trans hit
  · exact hf.2.2.2.2.trans hl
  · intro k
    unfold relaxCell
    rw [read_write, hu, if_neg (fun h => hne h.1), hread]
  · intro k hk
    unfold relaxCell
    rw [read_write, hu, if_pos ⟨rfl, hk⟩, hp, hread, hread, hread, hread, hk,
      row_above n i j hi, row_below n i j]
  · intro k hk
    unfold relaxCell
    rw [read_write, hu, if_neg (fun h => hk h.2)]

/-- What a relaxation pass does to a state whose two pointers differ: the
pointers, the error, the counter, the log and the whole buffer behind
`previousMatrix` are unchanged; every offset `i * n + j` visited by the loop
nest receives the four-neighbour average of the old `previousMatrix` contents;
every other offset of the buffer behind `updatedMatrix` is unchanged. -/
theorem relaxation_spec (n : Nat) (s : State) (hne : s.previousMatrix ≠ s.updatedMatrix) :
    ((relaxation n s).previousMatrix = s.previousMatrix
      ∧ (relaxation n s).updatedMatrix = s.updatedMatrix
      ∧ (relaxation n s).error = s.error ∧ (relaxation n s).iteration = s.iteration
      ∧ (relaxation n s).log = s.log
      ∧ ∀ k, (relaxation n s).read s.previousMatrix k = s.read s.previousMatrix k)
    ∧ (∀ k, (∃ i ∈ List.range' 1 (loopBound n - 1), ∃ j ∈ List.range' 1 (loopBound n - 1),
          k = i * n + j) →
        (relaxation n s).read s.updatedMatrix k
          = 0.25 * (s.read s.previousMatrix (k + 1) + s.read s.previousMatrix (k - 1)
            + s.read s.previousMatrix (k - n) + s.read s.previousMatrix (k + n)))
    ∧ (∀ k, (∀ i ∈ List.range' 1 (loopBound n - 1), ¬ ∃ j ∈ List.range' 1 (loopBound n - 1),
          k = i * n + j) →
        (relaxation n s).read s.updatedMatrix k = s.read s.updatedMatrix k) := by
  have hrows := foldl_overwrite
    (fun st => st.previousMatrix = s.previousMatrix ∧ st.updatedMatrix = s.updatedMatrix
      ∧ st.error = s.error ∧ st.iteration = s.iteration ∧ st.log = s.log
      ∧ ∀ k, st.read s.previousMatrix k = s.read s.previousMatrix k)
    (fun st k => st.read s.updatedMatrix k)
    (fun i st => forLoop 1 (loopBound n) (fun j st2 => relaxCell n i j st2) st)
    (fun i k => ∃ j ∈ List.range' 1 (loopBound n - 1), k = i * n + j)
    (fun k => 0.25 * (s.read s.previousMatrix (k + 1) + s.read s.previousMatrix (k - 1)
      + s.read s.previousMatrix (k - n) + s.read s.previousMatrix (k + n)))
    (List.range' 1 (loopBound n - 1))
    (by
      intro i hi st hG
      have hi1 : 1 ≤ i := (mem_loopRange hi).1
      have hrow := foldl_overwrite
        (fun st => st.previousMatrix = s.previousMatrix ∧ st.updatedMatrix = s.updatedMatrix
          ∧ st.error = s.error ∧ st.iteration = s.iteration ∧ st.log = s.log
          ∧ ∀ k, st.read s.previousMatrix k = s.read s.previousMatrix k)
        (fun st k => st.read s.updatedMatrix k)
        (fun j st2 => relaxCell n i j st2) (fun j k => k = i * n + j)
        (fun k => 0.25 * (s.read s.previousMatrix (k + 1) + s.read s.previousMatrix (k - 1)
          + s.read s.previousMatrix (k - n) + s.read s.previousMatrix (k + n)))
        (List.range' 1 (loopBound n - 1))
        (fun j _ st2 hG2 => relaxCell_step n i j hi1 s st2 hne hG2) st hG
      exact ⟨hrow.1, hrow.2.1, fun k hk => hrow.2.2 k (fun j hj hw => hk ⟨j, hj, hw⟩)⟩)
    s ⟨rfl, rfl, rfl, rfl, rfl, fun _ => rfl⟩
  exact hrows

/-- The value stored at an interior cell by a relaxation pass. -/
theorem relaxation_interior (n : Nat) (hn : 3 ≤ n) (s : State)
    (hne : s.previousMatrix ≠ s.updatedMatrix) (r c : Nat)
    (hr1 : 1 ≤ r) (hr2 : r ≤ n - 2) (hc1 : 1 ≤ c) (hc2 : c ≤ n - 2) :
    (relaxation n s).read s.updatedMatrix (r * n + c)
      = (s.read s.previousMatrix (r * n + (c + 1)) + s.read s.previousMatrix (r * n + (c - 1))
          + s.read s.previousMatrix ((r - 1) * n + c)
          + s.read s.previousMatrix ((r + 1) * n + c)) / 4 := by
  have hb : loopBound n = n - 1 := loopBound_of_pos (by omega)
  have hmem : ∃ i ∈ List.range' 1 (loopBound n - 1), ∃ j ∈ List.range' 1 (loopBound n - 1),
      r * n + c = i * n + j :=
    ⟨r, mem_loopRange_of hr1 (by omega), c, mem_loopRange_of hc1 (by omega), rfl⟩
  rw [(relaxation_spec n s hne).2.1 (r * n + c) hmem, row_above n r c hr1, row_below n r c]
  have e1 : r * n + (c + 1) = r * n + c + 1 := by omega
  have e2 : r * n + (c - 1) = r * n + c - 1 := by omega
  rw [e1, e2]
  norm_num
  ring

/-- Claim C1 (relaxation step).  For every `n ≥ 3`, every state whose two
pointers name different buffers and every interior cell `(r, c)` with
`1 ≤ r, c ≤ n - 2`, after one relaxation pass `updated[r][c]` equals
`(previous[r][c+1] + previous[r][c-1] + previous[r-1][c] + previous[r+1][c]) / 4`
with the four values taken from the state before the pass; the pass leaves
every cell of the buffer it reads as it was. -/
theorem C1_relaxation_step (n : Nat) (hn : 3 ≤ n) (s : State)
    (hne : s.previousMatrix ≠ s.updatedMatrix) :
    (∀ r c, 1 ≤ r → r ≤ n - 2 → 1 ≤ c → c ≤ n - 2 →
      (relaxation n s).read s.updatedMatrix (r * n + c)
        = (s.read s.previousMatrix (r * n + (c + 1)) + s.read s.previousMatrix (r * n + (c - 1))
            + s.read s.previousMatrix ((r - 1) * n + c)
            + s.read s.previousMatrix ((r + 1) * n + c)) / 4)
    ∧ (∀ k, (relaxation n s).read s.previousMatrix k = s.read s.previousMatrix k) :=
  ⟨fun r c hr1 hr2 hc1 hc2 => relaxation_interior n hn s hne r c hr1 hr2 hc1 hc2,
    (relaxation_spec n s hne).1.2.2.2.2.2⟩

/-- Instance of claim C1 at `n = 3` on `sampleState`: the centre cell (offset 4)
of the `current` buffer receives `(25 + 9 + 1 + 49) / 4 = 21`, and the `new`
buffer still holds `16` there. -/
theorem C1_relaxation_step_witness :
    (relaxation 3 sampleState).read Ptr.current 4 = 21
      ∧ (relaxation 3 sampleState).read Ptr.new 4 = 16 := by
  have h := C1_relaxation_step 3 (by decide) sampleState (by decide)
  have h4 := h.1 1 1 (by decide) (by decide) (by decide) (by decide)
  have h5 := h.2 4
  simp only [sampleState, State.read] at h4 h5 ⊢
  rw [h4, h5]
  norm_num

/-! ## The error reduction -/

/-- A fold of steps that never decrease the accumulator, dominate the values
described by `A i`, and return either the accumulator or one of those values. -/
theorem foldl_maxlike {ι : Type} (step : ι → ℚ → ℚ) (A : ι → ℚ → Prop) (l : List ι)
    (hstep : ∀ i ∈ l, ∀ e, e ≤ step i e ∧ (∀ x, A i x → x ≤ step i e)
      ∧ (step i e = e ∨ A i (step i e)))
    (e : ℚ) :
    e ≤ l.foldl (fun acc i => step i acc) e
      ∧ (∀ i ∈ l, ∀ x, A i x → x ≤ l.foldl (fun acc i => step i acc) e)
      ∧ (l.foldl (fun acc i => step i acc) e = e
          ∨ ∃ i ∈ l, A i (l.foldl (fun acc i => step i acc) e)) := by
  induction l generalizing e with
  | nil =>
    refine ⟨le_refl e, ?_, Or.inl rfl⟩
    intro i hi
    cases hi
  | cons a t ih =>
    rw [List.foldl_cons]
    obtain ⟨h1, h2, h3⟩ := hstep a (List.mem_cons_self a t) e
    obtain ⟨i1, i2, i3⟩ := ih (fun i hi => hstep i (List.mem_cons_of_mem a hi)) (step a e)
    refine ⟨le_trans h1 i1, ?_, ?_⟩
    · intro i hi x hx
      rcases List.mem_cons.mp hi with rfl | hit
      · exact le_trans (h2 x hx) i1
      · exact i2 i hit x hx
    · rcases i3 with heq | ⟨i, hi, hA⟩
      · rw [heq]
        rcases h3 with h3 | h3
        · exact Or.inl h3
        · exact Or.inr ⟨a, List.mem_cons_self a t, h3⟩
      · exact Or.inr ⟨i, List.mem_cons_of_mem a hi, hA⟩

/-- The reduction returns a non-negative upper bound of the absolute
differences at the visited offsets, and it is `0` or one of them. -/
theorem errorReduction_spec (n : Nat) (s : State) :
    0 ≤ errorReduction n s
      ∧ (∀ i ∈ List.range' 1 (loopBound n - 1), ∀ j ∈ List.range' 1 (loopBound n - 1),
          |s.read s.updatedMatrix (i * n + j) - s.read s.previousMatrix (i * n + j)|
            ≤ errorReduction n s)
      ∧ (errorReduction n s = 0
          ∨ ∃ i ∈ List.range' 1 (loopBound n - 1), ∃ j ∈ List.range' 1 (loopBound n - 1),
            errorReduction n s
              = |s.read s.updatedMatrix (i * n + j) - s.read s.previousMatrix (i * n + j)|) := by
  have houter := foldl_maxlike
    (fun i e => forLoop 1 (loopBound n)
      (fun j e2 => max e2 |s.read s.updatedMatrix (i * n + j)
        - s.read s.previousMatrix (i * n + j)|) e)
    (fun i x => ∃ j ∈ List.range' 1 (loopBound n - 1),
      x = |s.read s.updatedMatrix (i * n + j) - s.read s.previousMatrix (i * n + j)|)
    (List.range' 1 (loopBound n - 1))
    (by
      intro i _ e
      have hinner := foldl_maxlike
        (fun j e2 => max e2 |s.read s.updatedMatrix (i * n + j)
          - s.read s.previousMatrix (i * n + j)|)
        (fun j x => x = |s.read s.updatedMatrix (i * n + j)
          - s.read s.previousMatrix (i * n + j)|)
        (List.range' 1 (loopBound n - 1))
        (by
          intro j _ e2
          refine ⟨le_max_left _ _, ?_, ?_⟩
          · intro x hx
            rw [hx]
            exact le_max_right _ _
          · rcases max_choice e2 |s.read s.updatedMatrix (i * n + j)
              - s.read s.previousMatrix (i * n + j)| with h | h
            · exact Or.inl h
            · exact Or.inr h)
        e
      refine ⟨hinner.1, ?_, ?_⟩
      · rintro x ⟨j, hj, rfl⟩
        exact hinner.2.1 j hj _ rfl
      · rcases hinner.2.2 with h | ⟨j, hj, h⟩
        · exact Or.inl h
        · exact Or.inr ⟨j, hj, h⟩)
    0
  refine ⟨houter.1, ?_, houter.2.2⟩
  intro i hi j hj
  exact houter.2.1 i hi _ ⟨j, hj, rfl⟩

theorem relaxation_iteration (n : Nat) (s : State) :
    (relaxation n s).iteration = s.iteration := by
  unfold relaxation
  refine forLoop_invariant (fun st => st.iteration = s.iteration) 1 (loopBound n) _ ?_ s rfl
  intro i _ _ st hst
  refine forLoop_invariant (fun st2 => st2.iteration = s.iteration) 1 (loopBound n) _ ?_ st hst
  intro j _ _ st2 hst2
  exact (write_fields st2 _ _ _).2.2.2.1.trans hst2

/-- The error stored by a pass in which the check fires. -/
theorem loopBody_error_checked (n : Nat) (s : State) (h : (s.iteration + 1) % 10000 = 0) :
    (loopBody n s).error = errorReduction n (relaxation n s) := by
  have hit : ((relaxation n s).iteration + 1) % 10000 = 0 := by
    rw [relaxation_iteration]
    exact h
  unfold loopBody convergenceCheck swapPointers
  dsimp only
  rw [if_pos hit]

theorem errorReduction_ge (n : Nat) (hn : 3 ≤ n) (s : State) (r c : Nat)
    (hr1 : 1 ≤ r) (hr2 : r ≤ n - 2) (hc1 : 1 ≤ c) (hc2 : c ≤ n - 2) :
    |s.read s.updatedMatrix (r * n + c) - s.read s.previousMatrix (r * n + c)|
      ≤ errorReduction n s := by
  have hb : loopBound n = n - 1 := loopBound_of_pos (by omega)
  exact (errorReduction_spec n s).2.1 r (mem_loopRange_of hr1 (by omega)) c
    (mem_loopRange_of hc1 (by omega))

theorem errorReduction_attained (n : Nat) (hn : 3 ≤ n) (s : State) :
    ∃ r c, 1 ≤ r ∧ r ≤ n - 2 ∧ 1 ≤ c ∧ c ≤ n - 2 ∧ errorReduction n s
      = |s.read s.updatedMatrix (r * n + c) - s.read s.previousMatrix (r * n + c)| := by
  have hb : loopBound n = n - 1 := loopBound_of_pos (by omega)
  rcases (errorReduction_spec n s).2.2 with h0 | ⟨i, hi, j, hj, hij⟩
  · refine ⟨1, 1, le_refl 1, by omega, le_refl 1, by omega, ?_⟩
    have hle := errorReduction_ge n hn s 1 1 (le_refl 1) (by omega) (le_refl 1) (by omega)
    rw [h0] at hle ⊢
    exact le_antisymm (abs_nonneg _) hle
  · have hi2 := mem_loopRange hi
    have hj2 := mem_loopRange hj
    exact ⟨i, j, hi2.1, by omega, hj2.1, by omega, hij⟩

theorem errorReduction_eq_zero_iff (n : Nat) (hn : 3 ≤ n) (s : State) :
    errorReduction n s = 0 ↔ ∀ r c, 1 ≤ r → r ≤ n - 2 → 1 ≤ c → c ≤ n - 2 →
      s.read s.updatedMatrix (r * n + c) = s.read s.previousMatrix (r * n + c) := by
  constructor
  · intro h0 r c hr1 hr2 hc1 hc2
    have hle := errorReduction_ge n hn s r c hr1 hr2 hc1 hc2
    rw [h0] at hle
    exact sub_eq_zero.mp (abs_eq_zero.mp (le_antisymm hle (abs_nonneg _)))
  · intro hall
    obtain ⟨r, c, hr1, hr2, hc1, hc2, he⟩ := errorReduction_attained n hn s
    rw [he, hall r c hr1 hr2 hc1 hc2, sub_self, abs_zero]

/-- Claim C2 (convergence monitor).  For every `n ≥ 3` and every state, the
value of the reduction is the greatest element of the set of
`|updated[r][c] - previous[r][c]|` over the interior cells `1 ≤ r, c ≤ n - 2`;
it is non-negative; it is `0` exactly when the two buffers agree on every
interior cell; and in a pass in which the check fires it is evaluated on the
state left by that pass's relaxation, so it measures the change made by the
most recent relaxation pass. -/
theorem C2_convergence_monitor (n : Nat) (hn : 3 ≤ n) (s : State) :
    IsGreatest {x : ℚ | ∃ r c, 1 ≤ r ∧ r ≤ n - 2 ∧ 1 ≤ c ∧ c ≤ n - 2 ∧
        x = |s.read s.updatedMatrix (r * n + c) - s.read s.previousMatrix (r * n + c)|}
      (errorReduction n s)
    ∧ 0 ≤ errorReduction n s
    ∧ (errorReduction n s = 0 ↔ ∀ r c, 1 ≤ r → r ≤ n - 2 → 1 ≤ c → c ≤ n - 2 →
        s.read s.updatedMatrix (r * n + c) = s.read s.previousMatrix (r * n + c))
    ∧ ((s.iteration + 1) % 10000 = 0 →
        (loopBody n s).error = errorReduction n (relaxation n s)) := by
  refine ⟨⟨errorReduction_attained n hn s, ?_⟩, (errorReduction_spec n s).1,
    errorReduction_eq_zero_iff n hn s, loopBody_error_checked n s⟩
  rintro x ⟨r, c, hr1, hr2, hc1, hc2, rfl⟩
  exact errorReduction_ge n hn s r c hr1 hr2 hc1 hc2

/-- Instance of claim C2 at `n = 3` on `sampleState`: the only interior cell is
offset 4, where the buffers hold `4` and `16`, so the error is `12`. -/
theorem C2_convergence_monitor_witness : errorReduction 3 sampleState = 12 := by
  obtain ⟨⟨⟨r, c, hr1, hr2, hc1, hc2, he⟩, -⟩, -, -, -⟩ :=
    C2_convergence_monitor 3 (by decide) sampleState
  have hr : r = 1 := by omega
  have hc : c = 1 := by omega
  subst hr
  subst hc
  rw [he]
  simp only [sampleState, State.read]
  norm_num

/-! ## The boundary initializer -/

theorem cell_div {n r c : Nat} (hc : c < n) : (r * n + c) / n = r := by
  have hpos : 0 < n := by omega
  rw [Nat.mul_comm, Nat.mul_add_div hpos, Nat.div_eq_of_lt hc, Nat.add_zero]

theorem cell_mod {n r c : Nat} (hc : c < n) : (r * n + c) % n = c := by
  rw [Nat.mul_comm, Nat.mul_add_mod, Nat.mod_eq_of_lt hc]

theorem edge_offsets (n i : Nat) (hi1 : 1 ≤ i) (hi2 : i ≤ n - 2) (hn : 3 ≤ n) :
    n ≤ i * n ∧ i * n + n ≤ (n - 1) * n := by
  constructor
  · exact Nat.le_mul_of_pos_left n hi1
  · have h : (i + 1) * n ≤ (n - 1) * n := Nat.mul_le_mul_right n (by omega)
    rw [Nat.succ_mul] at h
    exact h

/-- One pass of the edge loop on a buffer whose corners hold 10, 20, 30, 20:
the corners are kept, the four offsets of the pass receive their interpolated
values, every other offset is untouched. -/
theorem initializeEdgeStep_step (n i : Nat) (hn : 3 ≤ n) (hi1 : 1 ≤ i) (hi2 : i ≤ n - 2)
    (m : Buffer)
    (hG : m 0 = 10 ∧ m (n - 1) = 20 ∧ m ((n - 1) * n + (n - 1)) = 30 ∧ m ((n - 1) * n) = 20) :
    ((initializeEdgeStep n i m) 0 = 10 ∧ (initializeEdgeStep n i m) (n - 1) = 20
      ∧ (initializeEdgeStep n i m) ((n - 1) * n + (n - 1)) = 30
      ∧ (initializeEdgeStep n i m) ((n - 1) * n) = 20)
    ∧ (∀ k, (k = 0 * n + i ∨ k = i * n + 0 ∨ k = i * n + (n - 1) ∨ k = (n - 1) * n + i) →
        (initializeEdgeStep n i m) k = edgeValue n (k / n) (k % n))
    ∧ (∀ k, ¬ (k = 0 * n + i ∨ k = i * n + 0 ∨ k = i * n + (n - 1) ∨ k = (n - 1) * n + i) →
        (initializeEdgeStep n i m) k = m k) := by
  obtain ⟨h0, h1, h2, h3⟩ := hG
  obtain ⟨hX1, hX2⟩ := edge_offsets n i hi1 hi2 hn
  have hkeep : ∀ k, ¬ (k = 0 * n + i ∨ k = i * n + 0 ∨ k = i * n + (n - 1)
      ∨ k = (n - 1) * n + i) → (initializeEdgeStep n i m) k = m k := by
    intro k hk
    have ka : k ≠ 0 * n + i := fun h => hk (Or.inl h)
    have kb : k ≠ i * n + 0 := fun h => hk (Or.inr (Or.inl h))
    have kc : k ≠ i * n + (n - 1) := fun h => hk (Or.inr (Or.inr (Or.inl h)))
    have kd : k ≠ (n - 1) * n + i := fun h => hk (Or.inr (Or.inr (Or.inr h)))
    simp only [initializeEdgeStep]
    rw [Function.update_noteq kd, Function.update_noteq kc, Function.update_noteq kb,
      Function.update_noteq ka]
  have p1 : ¬ (0 = 0 * n + i) := by omega
  have p2 : ¬ ((n - 1) * n = 0 * n + i) := by omega
  have p3 : ¬ (n - 1 = i * n + 0) := by omega
  have p4 : ¬ (n - 1 = 0 * n + i) := by omega
  have p5 : ¬ ((n - 1) * n + (n - 1) = i * n + 0) := by omega
  have p6 : ¬ ((n - 1) * n + (n - 1) = 0 * n + i) := by omega
  have p7 : ¬ ((n - 1) * n = i * n + (n - 1)) := by omega
  have p8 : ¬ ((n - 1) * n = i * n + 0) := by omega
  have p9 : ¬ ((n - 1) * n + (n - 1) = i * n + (n - 1)) := by omega
  have q1 : ¬ (0 * n + i = (n - 1) * n + i) := by omega
  have q2 : ¬ (0 * n + i = i * n + (n - 1)) := by omega
  have q3 : ¬ (0 * n + i = i * n + 0) := by omega
  have q4 : ¬ (i * n + 0 = (n - 1) * n + i) := by omega
  have q5 : ¬ (i * n + 0 = i * n + (n - 1)) := by omega
  have q6 : ¬ (i * n + (n - 1) = (n - 1) * n + i) := by omega
  refine ⟨⟨?_, ?_, ?_, ?_⟩, ?_, hkeep⟩
  · rw [hkeep 0 (by omega), h0]
  · rw [hkeep (n - 1) (by omega), h1]
  · rw [hkeep ((n - 1) * n + (n - 1)) (by omega), h2]
  · rw [hkeep ((n - 1) * n) (by omega), h3]
  · intro k hk
    rcases hk with rfl | rfl | rfl | rfl
    · rw [cell_div (by omega), cell_mod (by omega)]
      simp only [initializeEdgeStep, Function.update_apply, q1, q2, q3, if_false, if_true,
        h0, h1, edgeValue, linearInterpolation]
      norm_num
    · rw [cell_div (by omega), cell_mod (by omega)]
      have r1 : ¬ (i = 0) := by omega
      have r2 : ¬ (i = n - 1) := by omega
      simp only [initializeEdgeStep, Function.update_apply, q4, q5, p1, p2, if_false, if_true,
        h0, h3, edgeValue, linearInterpolation, r1, r2]
      norm_num
    · rw [cell_div (by omega), cell_mod (by omega)]
      have r1 : ¬ (i = 0) := by omega
      have r2 : ¬ (i = n - 1) := by omega
      have r3 : ¬ (n - 1 = 0) := by omega
      simp only [initializeEdgeStep, Function.update_apply, q6, p3, p4, p5, p6, if_false,
        if_true, h1, h2, edgeValue, linearInterpolation, r1, r2, r3]
      norm_num
    · rw [cell_div (by omega), cell_mod (by omega)]
      have r3 : ¬ (n - 1 = 0) := by omega
      simp only [initializeEdgeStep, Function.update_apply, p7, p8, p2, p9, p5, p6, if_false,
        if_true, h3, h2, edgeValue, linearInterpolation, r3]
      norm_num

/-- What `initializeMatrix` leaves in the buffer, for `n ≥ 2`: the corner
values, the interpolated value at every offset written by the edge loop, and
the old contents everywhere else. -/
theorem initializeMatrix_spec (n : Nat) (hn : 2 ≤ n) (m : Buffer) :
    ((initializeMatrix m n) 0 = 10 ∧ (initializeMatrix m n) (n - 1) = 20
      ∧ (initializeMatrix m n) ((n - 1) * n + (n - 1)) = 30
      ∧ (initializeMatrix m n) ((n - 1) * n) = 20)
    ∧ (∀ k, (∃ i, 1 ≤ i ∧ i ≤ n - 2 ∧
          (k = 0 * n + i ∨ k = i * n + 0 ∨ k = i * n + (n - 1) ∨ k = (n - 1) * n + i)) →
        (initializeMatrix m n) k = edgeValue n (k / n) (k % n))
    ∧ (∀ k, (∀ i, 1 ≤ i → i ≤ n - 2 →
          ¬ (k = 0 * n + i ∨ k = i * n + 0 ∨ k = i * n + (n - 1) ∨ k = (n - 1) * n + i)) →
        k ≠ 0 → k ≠ n - 1 → k ≠ (n - 1) * n + (n - 1) → k ≠ (n - 1) * n →
        (initializeMatrix m n) k = m k) := by
  have hb : loopBound n = n - 1 := loopBound_of_pos (by omega)
  have hBL : n ≤ (n - 1) * n := Nat.le_mul_of_pos_left n (by omega)
  have hloop := foldl_overwrite
    (fun b : Buffer => b 0 = 10 ∧ b (n - 1) = 20 ∧ b ((n - 1) * n + (n - 1)) = 30
      ∧ b ((n - 1) * n) = 20)
    (fun b k => b k) (initializeEdgeStep n)
    (fun i k => k = 0 * n + i ∨ k = i * n + 0 ∨ k = i * n + (n - 1) ∨ k = (n - 1) * n + i)
    (fun k => edgeValue n (k / n) (k % n))
    (List.range' 1 (loopBound n - 1))
    (by
      intro i hi b hG
      have hi2 := mem_loopRange hi
      exact initializeEdgeStep_step n i (by omega) hi2.1 (by omega) b hG)
    (Function.update (Function.update (Function.update (Function.update m 0 10) (n - 1) 20)
      ((n - 1) * n + (n - 1)) 30) ((n - 1) * n) 20)
    (by
      refine ⟨?_, ?_, ?_, ?_⟩
      · rw [Function.update_noteq (by omega), Function.update_noteq (by omega),
          Function.update_noteq (by omega), Function.update_same]
      · rw [Function.update_noteq (by omega), Function.update_noteq (by omega),
          Function.update_same]
      · rw [Function.update_noteq (by omega), Function.update_same]
      · rw [Function.update_same])
  refine ⟨hloop.1, ?_, ?_⟩
  · rintro k ⟨i, hi1, hi2, hk⟩
    exact hloop.2.1 k ⟨i, mem_loopRange_of hi1 (by omega), hk⟩
  · intro k hk k0 k1 k2 k3
    have h := hloop.2.2 k (fun i hi => hk i (mem_loopRange hi).1 (by
      have := (mem_loopRange hi).2
      omega))
    have e : (initializeMatrix m n) k
        = (Function.update (Function.update (Function.update (Function.update m 0 10)
            (n - 1) 20) ((n - 1) * n + (n - 1)) 30) ((n - 1) * n) 20) k := h
    rw [e, Function.update_noteq k3, Function.update_noteq k2, Function.update_noteq k1,
      Function.update_noteq k0]

/-- On every cell of the four edges, `initializeMatrix` leaves `edgeValue`. -/
theorem initializeMatrix_boundary (n : Nat) (hn : 2 ≤ n) (m : Buffer) (r c : Nat)
    (hr : r < n) (hc : c < n) (hbd : r = 0 ∨ r = n - 1 ∨ c = 0 ∨ c = n - 1) :
    (initializeMatrix m n) (r * n + c) = edgeValue n r c := by
  obtain ⟨⟨hTL, hTR, hBR, hBL⟩, hedge, -⟩ := initializeMatrix_spec n hn m
  have hcast : ((n - 1 : ℕ) : ℚ) = (n : ℚ) - 1 := by
    rw [Nat.cast_sub (by omega)]
    norm_num
  have hne1 : ((n : ℚ) - 1) ≠ 0 := by
    have : (2 : ℚ) ≤ (n : ℚ) := by exact_mod_cast hn
    linarith
  have hn0 : ¬ (n - 1 = 0) := by omega
  by_cases hcorner : (r = 0 ∨ r = n - 1) ∧ (c = 0 ∨ c = n - 1)
  · rcases hcorner with ⟨rfl | rfl, rfl | rfl⟩
    · have e : 0 * n + 0 = 0 := by omega
      rw [e, hTL]
      simp [edgeValue]
    · have e : 0 * n + (n - 1) = n - 1 := by omega
      rw [e, hTR]
      simp only [edgeValue, if_true, hcast]
      field_simp
      norm_num
    · rw [Nat.add_zero, hBL]
      simp [edgeValue, hn0]
    · rw [hBR]
      simp only [edgeValue, hn0, if_false, if_true, hcast]
      field_simp
      norm_num
  · have hmem : ∃ i, 1 ≤ i ∧ i ≤ n - 2 ∧ (r * n + c = 0 * n + i ∨ r * n + c = i * n + 0
        ∨ r * n + c = i * n + (n - 1) ∨ r * n + c = (n - 1) * n + i) := by
      rcases hbd with h | h | h | h
      · exact ⟨c, by omega, by omega, Or.inl (by rw [h])⟩
      · exact ⟨c, by omega, by omega, Or.inr (Or.inr (Or.inr (by rw [h])))⟩
      · exact ⟨r, by omega, by omega, Or.inr (Or.inl (by rw [h]))⟩
      · exact ⟨r, by omega, by omega, Or.inr (Or.inr (Or.inl (by rw [h])))⟩
    rw [hedge (r * n + c) hmem, cell_div hc, cell_mod hc]

/-- No interior cell is written by `initializeMatrix`. -/
theorem initializeMatrix_interior (n : Nat) (hn : 2 ≤ n) (m : Buffer) (r c : Nat)
    (hr1 : 1 ≤ r) (hr2 : r ≤ n - 2) (hc1 : 1 ≤ c) (hc2 : c ≤ n - 2) :
    (initializeMatrix m n) (r * n + c) = m (r * n + c) := by
  have hn3 : 3 ≤ n := by omega
  obtain ⟨hX1, hX2⟩ := edge_offsets n r hr1 hr2 hn3
  apply (initializeMatrix_spec n hn m).2.2
  · intro i hi1 hi2 hk
    rcases hk with h | h | h | h
    · omega
    · have := (cell_eq_iff (by omega) (by omega)).mp h
      omega
    · have := (cell_eq_iff (by omega) (by omega)).mp h
      omega
    · omega
  · omega
  · omega
  · omega
  · omega

/-- Claim C3 (boundary initializer).  For every `n ≥ 2` and every prior buffer
content, after `initializeMatrix` the corners are `(0,0) = 10`, `(0,n-1) = 20`,
`(n-1,n-1) = 30`, `(n-1,0) = 20`; for every offset `0 ≤ i ≤ n-1` the edge cells
are top `(0,i) = 10 + i*10/(n-1)`, left `(i,0) = 10 + i*10/(n-1)`, right
`(i,n-1) = 20 + i*10/(n-1)`, bottom `(n-1,i) = 20 + i*10/(n-1)`; and every
interior cell keeps its prior content. -/
theorem C3_boundary_initializer (n : Nat) (hn : 2 ≤ n) (m : Buffer) :
    ((initializeMatrix m n) (0 * n + 0) = 10 ∧ (initializeMatrix m n) (0 * n + (n - 1)) = 20
      ∧ (initializeMatrix m n) ((n - 1) * n + (n - 1)) = 30
      ∧ (initializeMatrix m n) ((n - 1) * n + 0) = 20)
    ∧ (∀ i, i ≤ n - 1 →
        (initializeMatrix m n) (0 * n + i) = 10 + (i : ℚ) * 10 / ((n : ℚ) - 1)
        ∧ (initializeMatrix m n) (i * n + 0) = 10 + (i : ℚ) * 10 / ((n : ℚ) - 1)
        ∧ (initializeMatrix m n) (i * n + (n - 1)) = 20 + (i : ℚ) * 10 / ((n : ℚ) - 1)
        ∧ (initializeMatrix m n) ((n - 1) * n + i) = 20 + (i : ℚ) * 10 / ((n : ℚ) - 1))
    ∧ (∀ r c, 1 ≤ r → r ≤ n - 2 → 1 ≤ c → c ≤ n - 2 →
        (initializeMatrix m n) (r * n + c) = m (r * n + c)) := by
  have hcast : ((n - 1 : ℕ) : ℚ) = (n : ℚ) - 1 := by
    rw [Nat.cast_sub (by omega)]
    norm_num
  have hne1 : ((n : ℚ) - 1) ≠ 0 := by
    have : (2 : ℚ) ≤ (n : ℚ) := by exact_mod_cast hn
    linarith
  have hn0 : ¬ (n - 1 = 0) := by omega
  have hfull : ((n : ℚ) - 1) * 10 / ((n : ℚ) - 1) = 10 := by
    field_simp
  refine ⟨⟨?_, ?_, ?_, ?_⟩, ?_, ?_⟩
  · rw [initializeMatrix_boundary n hn m 0 0 (by omega) (by omega) (Or.inl rfl)]
    simp [edgeValue]
  · rw [initializeMatrix_boundary n hn m 0 (n - 1) (by omega) (by omega) (Or.inl rfl)]
    simp only [edgeValue, if_true, hcast, hfull]
    norm_num
  · rw [initializeMatrix_boundary n hn m (n - 1) (n - 1) (by omega) (by omega) (Or.inr (Or.inl rfl))]
    simp only [edgeValue, hn0, if_false, if_true, hcast, hfull]
    norm_num
  · rw [initializeMatrix_boundary n hn m (n - 1) 0 (by omega) (by omega) (Or.inr (Or.inl rfl))]
    simp [edgeValue, hn0]
  · intro i hi
    refine ⟨?_, ?_, ?_, ?_⟩
    · rw [initializeMatrix_boundary n hn m 0 i (by omega) (by omega) (Or.inl rfl)]
      simp [edgeValue]
    · rw [initializeMatrix_boundary n hn m i 0 (by omega) (by omega) (Or.inr (Or.inr (Or.inl rfl)))]
      by_cases h0 : i = 0
      · subst h0
        simp [edgeValue]
      · by_cases h1 : i = n - 1
        · subst h1
          simp only [edgeValue, hn0, if_false, if_true, hcast, hfull]
          norm_num
        · simp [edgeValue, h0, h1]
    · rw [initializeMatrix_boundary n hn m i (n - 1) (by omega) (by omega)
        (Or.inr (Or.inr (Or.inr rfl)))]
      by_cases h0 : i = 0
      · subst h0
        simp only [edgeValue, if_true, hcast, hfull]
        norm_num
      · by_cases h1 : i = n - 1
        · subst h1
          simp only [edgeValue, hn0, if_false, if_true, hcast, hfull]
        · simp [edgeValue, h0, h1, hn0]
    · rw [initializeMatrix_boundary n hn m (n - 1) i (by omega) (by omega) (Or.inr (Or.inl rfl))]
      simp [edgeValue, hn0]
  · intro r c hr1 hr2 hc1 hc2
    exact initializeMatrix_interior n hn m r c hr1 hr2 hc1 hc2

/-- Instance of claim C3 at `n = 4` on an all-zero buffer: the edge cells next
to the top-left corner hold `10 + 10/3`, and the interior cell `(1,1)` still
holds `0`. -/
theorem C3_boundary_initializer_witness :
    (initializeMatrix (fun _ => 0) 4) (0 * 4 + 1) = 40 / 3
      ∧ (initializeMatrix (fun _ => 0) 4) (1 * 4 + 0) = 40 / 3
      ∧ (initializeMatrix (fun _ => 0) 4) (1 * 4 + 1) = 0 := by
  obtain ⟨-, hedge, hint⟩ := C3_boundary_initializer 4 (by decide) (fun _ => 0)
  obtain ⟨h1, h2, -, -⟩ := hedge 1 (by decide)
  refine ⟨?_, ?_, ?_⟩
  · rw [h1]
    norm_num
  · rw [h2]
    norm_num
  · exact hint 1 1 (by decide) (by decide) (by decide) (by decide)

/-! ## One pass of the loop body -/

/-- A relaxation pass changes nothing but buffer contents. -/
theorem relaxation_fields (n : Nat) (s : State) :
    (relaxation n s).previousMatrix = s.previousMatrix
      ∧ (relaxation n s).updatedMatrix = s.updatedMatrix
      ∧ (relaxation n s).error = s.error
      ∧ (relaxation n s).iteration = s.iteration
      ∧ (relaxation n s).log = s.log := by
  unfold relaxation
  refine forLoop_invariant (fun st => st.previousMatrix = s.previousMatrix
    ∧ st.updatedMatrix = s.updatedMatrix ∧ st.error = s.error
    ∧ st.iteration = s.iteration ∧ st.log = s.log) 1 (loopBound n) _ ?_ s
    ⟨rfl, rfl, rfl, rfl, rfl⟩
  intro i _ _ st hst
  refine forLoop_invariant (fun st2 => st2.previousMatrix = s.previousMatrix
    ∧ st2.updatedMatrix = s.updatedMatrix ∧ st2.error = s.error
    ∧ st2.iteration = s.iteration ∧ st2.log = s.log) 1 (loopBound n) _ ?_ st hst
  intro j _ _ st2 hst2
  have hf := write_fields st2 st2.updatedMatrix (i * n + j)
    (0.25 * (st2.read st2.previousMatrix (i * n + j + 1)
      + st2.read st2.previousMatrix (i * n + j - 1)
      + st2.read st2.previousMatrix ((i - 1) * n + j)
      + st2.read st2.previousMatrix ((i + 1) * n + j)))
  exact ⟨hf.1.trans hst2.1, hf.2.1.trans hst2.2.1, hf.2.2.1.trans hst2.2.2.1,
    hf.2.2.2.1.trans hst2.2.2.2.1, hf.2.2.2.2.trans hst2.2.2.2.2⟩

/-- Buffers, pointers and counter after one pass of the loop body. -/
theorem loopBody_fields (n : Nat) (s : State) :
    (∀ p k, (loopBody n s).read p k = (relaxation n s).read p k)
      ∧ (loopBody n s).previousMatrix = s.updatedMatrix
      ∧ (loopBody n s).updatedMatrix = s.previousMatrix
      ∧ (loopBody n s).iteration = s.iteration + 1 := by
  obtain ⟨hp, hu, -, hit, -⟩ := relaxation_fields n s
  unfold loopBody convergenceCheck swapPointers
  dsimp only
  split
  · refine ⟨?_, hu, hp, ?_⟩
    · intro p k
      cases p <;> rfl
    · rw [← hit]
  · refine ⟨?_, hu, hp, ?_⟩
    · intro p k
      cases p <;> rfl
    · rw [← hit]

/-- Error and log after a pass in which the check fires. -/
theorem loopBody_checked (n : Nat) (s : State) (h : (s.iteration + 1) % 10000 = 0) :
    (loopBody n s).error = errorReduction n (relaxation n s)
      ∧ (loopBody n s).log
          = s.log ++ [(s.iteration + 1, errorReduction n (relaxation n s))] := by
  obtain ⟨-, -, -, hit, hl⟩ := relaxation_fields n s
  have hfire : ((relaxation n s).iteration + 1) % 10000 = 0 := by
    rw [hit]
    exact h
  unfold loopBody convergenceCheck swapPointers
  dsimp only
  rw [if_pos hfire]
  dsimp only
  rw [hit, hl]
  exact ⟨rfl, rfl⟩

/-- Error and log after a pass in which the check does not fire. -/
theorem loopBody_unchecked (n : Nat) (s : State) (h : ¬ (s.iteration + 1) % 10000 = 0) :
    (loopBody n s).error = s.error ∧ (loopBody n s).log = s.log := by
  obtain ⟨-, -, he, hit, hl⟩ := relaxation_fields n s
  have hfire : ¬ ((relaxation n s).iteration + 1) % 10000 = 0 := by
    rw [hit]
    exact h
  unfold loopBody convergenceCheck swapPointers
  dsimp only
  rw [if_neg hfire]
  exact ⟨he, hl⟩

/-- Counter and pointer distinctness along repeated passes. -/
theorem iterate_fields (n : Nat) (s : State) (hne : s.previousMatrix ≠ s.updatedMatrix)
    (k : Nat) :
    ((loopBody n)^[k] s).iteration = s.iteration + k
      ∧ ((loopBody n)^[k] s).previousMatrix ≠ ((loopBody n)^[k] s).updatedMatrix := by
  induction k with
  | zero => exact ⟨rfl, hne⟩
  | succ k ih =>
    rw [Function.iterate_succ_apply']
    obtain ⟨-, hp, hu, hit⟩ := loopBody_fields n ((loopBody n)^[k] s)
    rw [hp, hu, hit, ih.1]
    exact ⟨by omega, fun h => ih.2 h.symm⟩

/-! ## The `while` loop -/

theorem whileLoop_of_not (n : Nat) (acc : ℚ) (mx : Int) (s : State)
    (h : ¬ loopCondition acc mx s) : whileLoop n acc mx s = s := by
  rw [whileLoop, if_neg h]

theorem whileLoop_of_cond (n : Nat) (acc : ℚ) (mx : Int) (s : State)
    (h : loopCondition acc mx s) :
    whileLoop n acc mx s = whileLoop n acc mx (loopBody n s) := by
  rw [whileLoop, if_pos h]

/-- The loop returns the state after `j` passes when the condition holds
before each of the first `j` passes and fails after them. -/
theorem whileLoop_eq_iterate (n : Nat) (acc : ℚ) (mx : Int) (j : Nat) (s : State)
    (hlt : ∀ m, m < j → loopCondition acc mx ((loopBody n)^[m] s))
    (hj : ¬ loopCondition acc mx ((loopBody n)^[j] s)) :
    whileLoop n acc mx s = (loopBody n)^[j] s := by
  induction j generalizing s with
  | zero => exact whileLoop_of_not n acc mx s hj
  | succ j ih =>
    rw [whileLoop_of_cond n acc mx s (hlt 0 (Nat.succ_pos j)), Function.iterate_succ_apply]
    apply ih
    · intro m hm
      have := hlt (m + 1) (by omega)
      rwa [Function.iterate_succ_apply] at this
    · rwa [Function.iterate_succ_apply] at hj

/-- The loop always stops: there is a number of passes `j`, not larger than
what is left of the 10,000,000 pass budget, after which the condition fails
for the first time, and the loop returns the state after those `j` passes. -/
theorem whileLoop_stops (n : Nat) (acc : ℚ) (mx : Int) (s : State)
    (hne : s.previousMatrix ≠ s.updatedMatrix) :
    ∃ j, j ≤ 10000000 - s.iteration
      ∧ (∀ m, m < j → loopCondition acc mx ((loopBody n)^[m] s))
      ∧ ¬ loopCondition acc mx ((loopBody n)^[j] s)
      ∧ whileLoop n acc mx s = (loopBody n)^[j] s := by
  have hex : ∃ j, ¬ loopCondition acc mx ((loopBody n)^[j] s) := by
    refine ⟨10000000 - s.iteration, ?_⟩
    intro hc
    have h1 := hc.2.1
    rw [(iterate_fields n s hne _).1] at h1
    omega
  classical
  refine ⟨Nat.find hex, ?_, ?_, Nat.find_spec hex, ?_⟩
  · apply Nat.find_min' hex
    intro hc
    have h1 := hc.2.1
    rw [(iterate_fields n s hne _).1] at h1
    omega
  · intro m hm
    exact not_not.mp (Nat.find_min hex hm)
  · exact whileLoop_eq_iterate n acc mx _ s
      (fun m hm => not_not.mp (Nat.find_min hex hm)) (Nat.find_spec hex)

theorem initialState_fields (n : Nat) (a b : Buffer) :
    (initialState n a b).previousMatrix ≠ (initialState n a b).updatedMatrix
      ∧ (initialState n a b).iteration = 0
      ∧ (initialState n a b).error = 1
      ∧ (initialState n a b).log = [] := by
  refine ⟨?_, rfl, ?_, rfl⟩
  · show Ptr.new ≠ Ptr.current
    decide
  · show (1.0 : ℚ) = 1
    norm_num

/-- The solve is a number `j` of unconditional passes from the initial state;
`j` is the final counter, the condition held before each pass and fails at the
end. -/
theorem solve_stops (n : Nat) (acc : ℚ) (mx : Int) (a b : Buffer) :
    ∃ j, j ≤ 10000000
      ∧ (∀ m, m < j → loopCondition acc mx ((loopBody n)^[m] (initialState n a b)))
      ∧ ¬ loopCondition acc mx ((loopBody n)^[j] (initialState n a b))
      ∧ solve n acc mx a b = (loopBody n)^[j] (initialState n a b)
      ∧ (solve n acc mx a b).iteration = j := by
  obtain ⟨hne, hit, -, -⟩ := initialState_fields n a b
  obtain ⟨j, hj, hlt, hstop, heq⟩ := whileLoop_stops n acc mx (initialState n a b) hne
  refine ⟨j, by omega, hlt, hstop, heq, ?_⟩
  unfold solve
  rw [heq, (iterate_fields n _ hne j).1, hit, Nat.zero_add]

/-! ## Boundary invariance -/

/-- A relaxation pass leaves every offset that is not an interior cell as it
was, in both buffers. -/
theorem relaxation_frame (n : Nat) (hn : 1 ≤ n) (s : State)
    (hne : s.previousMatrix ≠ s.updatedMatrix) (p : Ptr) (k : Nat)
    (hk : ∀ i j, 1 ≤ i → i ≤ n - 2 → 1 ≤ j → j ≤ n - 2 → k ≠ i * n + j) :
    (relaxation n s).read p k = s.read p k := by
  have hb : loopBound n = n - 1 := loopBound_of_pos hn
  obtain ⟨⟨-, -, -, -, -, hprev⟩, -, hrest⟩ := relaxation_spec n s hne
  by_cases hp : p = s.previousMatrix
  · rw [hp]
    exact hprev k
  · have hu : p = s.updatedMatrix := by
      revert hp hne
      cases p <;> cases s.previousMatrix <;> cases s.updatedMatrix <;> simp
    rw [hu]
    apply hrest
    rintro i hi ⟨j, hj, hkij⟩
    have hi2 := mem_loopRange hi
    have hj2 := mem_loopRange hj
    exact hk i j hi2.1 (by omega) hj2.1 (by omega) hkij

/-- A cell on one of the four edges is not an interior offset. -/
theorem boundary_ne_interior (n r c : Nat) (hc : c < n)
    (hbd : r = 0 ∨ r = n - 1 ∨ c = 0 ∨ c = n - 1) (i j : Nat)
    (hi1 : 1 ≤ i) (hi2 : i ≤ n - 2) (hj1 : 1 ≤ j) (hj2 : j ≤ n - 2) :
    r * n + c ≠ i * n + j := by
  intro h
  have := (cell_eq_iff hc (by omega)).mp h
  omega

/-- After any number of passes, every edge cell of both buffers holds what it
held at the start. -/
theorem iterate_boundary (n : Nat) (hn : 1 ≤ n) (s : State)
    (hne : s.previousMatrix ≠ s.updatedMatrix) (k : Nat) (p : Ptr) (r c : Nat) (hc : c < n)
    (hbd : r = 0 ∨ r = n - 1 ∨ c = 0 ∨ c = n - 1) :
    ((loopBody n)^[k] s).read p (r * n + c) = s.read p (r * n + c) := by
  induction k with
  | zero => rfl
  | succ k ih =>
    rw [Function.iterate_succ_apply', (loopBody_fields n _).1,
      relaxation_frame n hn _ (iterate_fields n s hne k).2 p (r * n + c)
        (boundary_ne_interior n r c hc hbd), ih]

/-- Claim C4 (boundary invariance).  For every `n ≥ 3`, every prior content of
the two allocations and every cell `(r, c)` on one of the four edges: after any
number `k ≥ 0` of loop passes, and in the state the solve ends in, the cell
holds in both buffers exactly the value `initializeMatrix` wrote there (which
is `edgeValue`, whatever the prior content); and a relaxation pass on any
state with distinct pointers changes neither that cell of the buffer it
writes nor any cell of the buffer it reads. -/
theorem C4_boundary_invariance (n : Nat) (hn : 3 ≤ n) (rawCurrent rawNew : Buffer)
    (r c : Nat) (hr : r < n) (hc : c < n) (hbd : r = 0 ∨ r = n - 1 ∨ c = 0 ∨ c = n - 1) :
    (∀ k, ((loopBody n)^[k] (initialState n rawCurrent rawNew)).currentMatrix (r * n + c)
          = (initializeMatrix rawCurrent n) (r * n + c)
        ∧ ((loopBody n)^[k] (initialState n rawCurrent rawNew)).newMatrix (r * n + c)
          = (initializeMatrix rawNew n) (r * n + c))
    ∧ (∀ acc mx, (solve n acc mx rawCurrent rawNew).currentMatrix (r * n + c)
          = (initializeMatrix rawCurrent n) (r * n + c)
        ∧ (solve n acc mx rawCurrent rawNew).newMatrix (r * n + c)
          = (initializeMatrix rawNew n) (r * n + c))
    ∧ ((initializeMatrix rawCurrent n) (r * n + c) = edgeValue n r c
        ∧ (initializeMatrix rawNew n) (r * n + c) = edgeValue n r c)
    ∧ (∀ s : State, s.previousMatrix ≠ s.updatedMatrix →
        (relaxation n s).read s.updatedMatrix (r * n + c) = s.read s.updatedMatrix (r * n + c)
        ∧ ∀ k, (relaxation n s).read s.previousMatrix k = s.read s.previousMatrix k) := by
  have hne := (initialState_fields n rawCurrent rawNew).1
  have hpass : ∀ k, ((loopBody n)^[k] (initialState n rawCurrent rawNew)).currentMatrix
        (r * n + c) = (initializeMatrix rawCurrent n) (r * n + c)
      ∧ ((loopBody n)^[k] (initialState n rawCurrent rawNew)).newMatrix (r * n + c)
        = (initializeMatrix rawNew n) (r * n + c) := by
    intro k
    exact ⟨iterate_boundary n (by omega) _ hne k Ptr.current r c hc hbd,
      iterate_boundary n (by omega) _ hne k Ptr.new r c hc hbd⟩
  refine ⟨hpass, ?_, ⟨initializeMatrix_boundary n (by omega) rawCurrent r c hr hc hbd,
    initializeMatrix_boundary n (by omega) rawNew r c hr hc hbd⟩, ?_⟩
  · intro acc mx
    obtain ⟨j, -, -, -, heq, -⟩ := solve_stops n acc mx rawCurrent rawNew
    rw [heq]
    exact hpass j
  · intro s hs
    exact ⟨relaxation_frame n (by omega) s hs s.updatedMatrix (r * n + c)
        (boundary_ne_interior n r c hc hbd),
      (relaxation_spec n s hs).1.2.2.2.2.2⟩

/-- Instance of claim C4 at `n = 3`, cell `(0, 1)`, all-zero allocations: after
two passes both buffers hold `15` there. -/
theorem C4_boundary_invariance_witness :
    ((loopBody 3)^[2] (initialState 3 (fun _ => 0) (fun _ => 0))).currentMatrix (0 * 3 + 1) = 15
      ∧ ((loopBody 3)^[2] (initialState 3 (fun _ => 0) (fun _ => 0))).newMatrix (0 * 3 + 1)
        = 15 := by
  obtain ⟨hpass, -, hval, -⟩ := C4_boundary_invariance 3 (by decide) (fun _ => 0) (fun _ => 0)
    0 1 (by decide) (by decide) (Or.inl rfl)
  have hv : edgeValue 3 0 1 = 15 := by
    simp [edgeValue]
    norm_num
  rw [(hpass 2).1, (hpass 2).2, hval.1, hv]
  exact ⟨rfl, rfl⟩

/-! ## Iteration cap and check interval -/

/-- Starting from counter `0`, the error and the log are untouched by the
first 9,999 passes. -/
theorem iterate_before_first_check (n : Nat) (s : State)
    (hne : s.previousMatrix ≠ s.updatedMatrix) (hit : s.iteration = 0) (m : Nat)
    (hm : m < 10000) :
    ((loopBody n)^[m] s).error = s.error ∧ ((loopBody n)^[m] s).log = s.log := by
  induction m with
  | zero => exact ⟨rfl, rfl⟩
  | succ m ih =>
    have ih2 := ih (by omega)
    have hcount := (iterate_fields n s hne m).1
    have hno : ¬ (((loopBody n)^[m] s).iteration + 1) % 10000 = 0 := by
      rw [hcount, hit]
      omega
    rw [Function.iterate_succ_apply']
    obtain ⟨he, hl⟩ := loopBody_unchecked n _ hno
    exact ⟨he.trans ih2.1, hl.trans ih2.2⟩

/-- The final counter never exceeds either cap. -/
theorem solve_iteration_le (n : Nat) (acc : ℚ) (mx : Int) (a b : Buffer) :
    ((solve n acc mx a b).iteration : Int) ≤ min (max mx 0) 10000000 := by
  obtain ⟨j, -, hlt, -, -, hfin⟩ := solve_stops n acc mx a b
  obtain ⟨hne, hit, -, -⟩ := initialState_fields n a b
  rw [hfin]
  rcases Nat.eq_zero_or_pos j with h0 | hpos
  · subst h0
    simp
  · have hc := hlt (j - 1) (by omega)
    have h1 := hc.1
    have h2 := hc.2.1
    rw [(iterate_fields n _ hne (j - 1)).1, hit] at h1 h2
    have h3 : (j : Int) ≤ mx := by omega
    have h4 : (j : Int) ≤ 10000000 := by omega
    exact le_min (le_trans h3 (le_max_left mx 0)) h4

/-- Claim C6 (termination under the cap).  For every size, tolerance,
`maxIterations` and prior buffer content the loop terminates: the solve is a
finite number of passes from the initial state, the loop condition is false
in the state it returns, and the final counter is at most
`min (max maxIterations 0) 10000000`. -/
theorem C6_termination_under_cap (n : Nat) (acc : ℚ) (mx : Int) (a b : Buffer) :
    (∃ j, solve n acc mx a b = (loopBody n)^[j] (initialState n a b)
        ∧ (solve n acc mx a b).iteration = j)
    ∧ ¬ loopCondition acc mx (solve n acc mx a b)
    ∧ ((solve n acc mx a b).iteration : Int) ≤ min (max mx 0) 10000000 := by
  obtain ⟨j, -, -, hstop, heq, hfin⟩ := solve_stops n acc mx a b
  refine ⟨⟨j, heq, hfin⟩, ?_, solve_iteration_le n acc mx a b⟩
  rw [heq]
  exact hstop

/-- Instance of claim C6 with `maxIterations = 20000000`: the counter stays
within the internal cap of 10,000,000. -/
theorem C6_termination_under_cap_witness :
    ((solve 3 0 20000000 (fun _ => 0) (fun _ => 0)).iteration : Int) ≤ 10000000 := by
  have h := (C6_termination_under_cap 3 0 20000000 (fun _ => 0) (fun _ => 0)).2.2
  exact le_trans h (min_le_right _ _)

/-- With a tolerance below `1` and `0 ≤ maxIterations < 10000` the loop runs
exactly `maxIterations` passes and the error keeps its initial value. -/
theorem solve_cap_small (n : Nat) (acc : ℚ) (hacc : acc < 1) (mx : Int) (h0 : 0 ≤ mx)
    (h1 : mx < 10000) (a b : Buffer) :
    solve n acc mx a b = (loopBody n)^[mx.toNat] (initialState n a b)
      ∧ ((solve n acc mx a b).iteration : Int) = mx
      ∧ (solve n acc mx a b).error = 1 := by
  obtain ⟨hne, hit, herr, -⟩ := initialState_fields n a b
  have hcast : ((mx.toNat : Nat) : Int) = mx := Int.toNat_of_nonneg h0
  have heq : solve n acc mx a b = (loopBody n)^[mx.toNat] (initialState n a b) := by
    unfold solve
    apply whileLoop_eq_iterate
    · intro m hm
      have hcount := (iterate_fields n _ hne m).1
      have herr2 := (iterate_before_first_check n _ hne hit m (by omega)).1
      refine ⟨?_, ?_, ?_⟩
      · rw [hcount, hit]
        omega
      · rw [hcount, hit]
        omega
      · rw [herr2, herr]
        exact hacc
    · intro hc
      have h2 := hc.1
      rw [(iterate_fields n _ hne _).1, hit] at h2
      omega
  refine ⟨heq, ?_, ?_⟩
  · rw [heq, (iterate_fields n _ hne _).1, hit]
    omega
  · rw [heq, (iterate_before_first_check n _ hne hit _ (by omega)).1, herr]

/-- Claim C7 (cap behaviour).  For every `n ≥ 3`, every prior buffer content and
every `maxIterations = M` with `0 ≤ M < 10000`, the solve with tolerance `0`
ends with `iterationCount = M` while the error (still its initial `1`) is above
the tolerance, i.e. it stops on the iteration cap; in particular `M = 100`
gives `iterationCount = 100`. -/
theorem C7_cap_behaviour (n : Nat) (_hn : 3 ≤ n) (mx : Int) (h0 : 0 ≤ mx) (h1 : mx < 10000)
    (a b : Buffer) :
    ((solve n 0 mx a b).iteration : Int) = mx
      ∧ (solve n 0 mx a b).error > 0
      ∧ ¬ ((solve n 0 mx a b).iteration : Int) < mx
      ∧ (solve n 0 100 a b).iteration = 100 := by
  obtain ⟨-, hit, herr⟩ := solve_cap_small n 0 (by norm_num) mx h0 h1 a b
  obtain ⟨-, hit100, -⟩ := solve_cap_small n 0 (by norm_num) 100 (by decide) (by decide) a b
  refine ⟨hit, ?_, ?_, ?_⟩
  · rw [herr]
    norm_num
  · rw [hit]
    exact lt_irrefl mx
  · exact_mod_cast hit100

/-- Instance of claim C7 at `n = 3`, `maxIterations = 100`, all-zero allocations. -/
theorem C7_cap_behaviour_witness :
    ((solve 3 0 100 (fun _ => 0) (fun _ => 0)).iteration : Int) = 100 :=
  (C7_cap_behaviour 3 (by decide) 100 (by decide) (by decide) (fun _ => 0) (fun _ => 0)).1

/-- Claim C8 (check interval).  In every loop pass the counter grows by one, and
the convergence monitor runs (the error is recomputed by the reduction and a
progress line is printed) if and only if the counter after the pass is a
multiple of 10,000; in every other pass the error and the log keep their
previous values.  Hence a solve that ends with `iterationCount < 10000`
reports the initial error `1` and has printed no progress line. -/
theorem C8_check_interval (n : Nat) (s : State) :
    (loopBody n s).iteration = s.iteration + 1
    ∧ ((loopBody n s).iteration % 10000 = 0 →
        (loopBody n s).error = errorReduction n (relaxation n s)
        ∧ (loopBody n s).log
            = s.log ++ [((loopBody n s).iteration, errorReduction n (relaxation n s))])
    ∧ (¬ (loopBody n s).iteration % 10000 = 0 →
        (loopBody n s).error = s.error ∧ (loopBody n s).log = s.log)
    ∧ ((loopBody n s).log ≠ s.log ↔ (loopBody n s).iteration % 10000 = 0)
    ∧ (∀ (acc : ℚ) (mx : Int) (a b : Buffer), (solve n acc mx a b).iteration < 10000 →
        (solve n acc mx a b).error = 1 ∧ (solve n acc mx a b).log = []) := by
  have hit := (loopBody_fields n s).2.2.2
  refine ⟨hit, ?_, ?_, ?_, ?_⟩
  · intro h
    rw [hit] at h ⊢
    exact loopBody_checked n s h
  · intro h
    rw [hit] at h
    exact loopBody_unchecked n s h
  · rw [hit]
    constructor
    · intro hlog
      by_contra h
      exact hlog (loopBody_unchecked n s h).2
    · intro h hlog
      have hl := (loopBody_checked n s h).2
      rw [hlog] at hl
      have hlen := congrArg List.length hl
      rw [List.length_append, List.length_singleton] at hlen
      omega
  · intro acc mx a b hlt
    obtain ⟨j, -, -, -, heq, hfin⟩ := solve_stops n acc mx a b
    obtain ⟨hne, hit0, herr, hlog⟩ := initialState_fields n a b
    rw [hfin] at hlt
    obtain ⟨he, hl⟩ := iterate_before_first_check n _ hne hit0 j hlt
    rw [heq, he, hl]
    exact ⟨herr, hlog⟩

/-- Instance of claim C8: a first pass (counter `0 → 1`) on `sampleState` keeps
the error `1` and prints nothing. -/
theorem C8_check_interval_witness :
    (loopBody 3 sampleState).iteration = 1 ∧ (loopBody 3 sampleState).error = 1
      ∧ (loopBody 3 sampleState).log = [] := by
  obtain ⟨hit, -, hkeep, -, -⟩ := C8_check_interval 3 sampleState
  have hit1 : (loopBody 3 sampleState).iteration = 1 := hit
  have hno : ¬ (loopBody 3 sampleState).iteration % 10000 = 0 := by
    rw [hit1]
    decide
  obtain ⟨he, hl⟩ := hkeep hno
  refine ⟨hit1, ?_, ?_⟩
  · rw [he]
    show (1.0 : ℚ) = 1
    norm_num
  · rw [hl]
    rfl

/-! ## Stopping on convergence -/

/-- After `k` passes, `k` a positive multiple of 10,000, the stored error is
the one computed by the check of pass `k`. -/
theorem iterate_error_at_check (n : Nat) (a b : Buffer) (k : Nat) (hk : 1 ≤ k)
    (hdiv : 10000 ∣ k) :
    ((loopBody n)^[k] (initialState n a b)).error = checkError n a b k := by
  obtain ⟨hne, hit, -, -⟩ := initialState_fields n a b
  obtain ⟨k2, rfl⟩ : ∃ k2, k = k2 + 1 := ⟨k - 1, by omega⟩
  have hfire : (((loopBody n)^[k2] (initialState n a b)).iteration + 1) % 10000 = 0 := by
    rw [(iterate_fields n _ hne k2).1, hit]
    omega
  rw [Function.iterate_succ_apply', (loopBody_checked n _ hfire).1]
  rfl

/-- With a tolerance below the initial error `1`, a stored error within the
tolerance after `m` passes comes from a check at some pass `k ≤ m`. -/
theorem iterate_error_le (n : Nat) (a b : Buffer) (acc : ℚ) (hacc : acc < 1) (m : Nat)
    (hle : ((loopBody n)^[m] (initialState n a b)).error ≤ acc) :
    ∃ k, 1 ≤ k ∧ k ≤ m ∧ 10000 ∣ k ∧ checkError n a b k ≤ acc := by
  obtain ⟨hne, hit, herr, -⟩ := initialState_fields n a b
  induction m with
  | zero =>
    exfalso
    have h1 : (initialState n a b).error ≤ acc := hle
    rw [herr] at h1
    linarith
  | succ m ih =>
    by_cases hdiv : 10000 ∣ m + 1
    · refine ⟨m + 1, by omega, le_refl _, hdiv, ?_⟩
      rw [← iterate_error_at_check n a b (m + 1) (by omega) hdiv]
      exact hle
    · have hno : ¬ (((loopBody n)^[m] (initialState n a b)).iteration + 1) % 10000 = 0 := by
        rw [(iterate_fields n _ hne m).1, hit]
        omega
      rw [Function.iterate_succ_apply', (loopBody_unchecked n _ hno).1] at hle
      obtain ⟨k, hk1, hk2, hk3, hk4⟩ := ih hle
      exact ⟨k, hk1, by omega, hk3, hk4⟩

/-- Where the solve stops, for a tolerance below `1`: not after any check
within the cap whose error is within the tolerance, never beyond the cap, and
before the cap only at such a check. -/
theorem solve_first_converged (n : Nat) (acc : ℚ) (hacc : acc < 1) (mx : Int) (a b : Buffer) :
    (∀ k, 1 ≤ k → k ≤ min mx.toNat 10000000 → 10000 ∣ k → checkError n a b k ≤ acc →
        (solve n acc mx a b).iteration ≤ k)
    ∧ (solve n acc mx a b).iteration ≤ min mx.toNat 10000000
    ∧ ((solve n acc mx a b).iteration < min mx.toNat 10000000 →
        1 ≤ (solve n acc mx a b).iteration ∧ 10000 ∣ (solve n acc mx a b).iteration
        ∧ checkError n a b (solve n acc mx a b).iteration ≤ acc) := by
  obtain ⟨j, -, hlt, hstop, -, hfin⟩ := solve_stops n acc mx a b
  obtain ⟨hne, hit, -, -⟩ := initialState_fields n a b
  have hcap := solve_iteration_le n acc mx a b
  rw [hfin] at hcap ⊢
  have hA : ∀ k, 1 ≤ k → k ≤ min mx.toNat 10000000 → 10000 ∣ k → checkError n a b k ≤ acc →
      j ≤ k := by
    intro k hk1 _ hdiv hle
    by_contra hkj
    have hc := hlt k (by omega)
    have herr := hc.2.2
    rw [iterate_error_at_check n a b k hk1 hdiv] at herr
    exact absurd hle (not_le.mpr herr)
  have hC : j ≤ min mx.toNat 10000000 := by
    rcases le_total mx 0 with hneg | hpos
    · have h1 : max mx 0 = 0 := max_eq_right hneg
      rw [h1] at hcap
      have h2 : (j : Int) ≤ 0 := le_trans hcap (min_le_left _ _)
      omega
    · have h1 : max mx 0 = mx := max_eq_left hpos
      rw [h1] at hcap
      have h2 : (j : Int) ≤ mx := le_trans hcap (min_le_left _ _)
      have h3 : (j : Int) ≤ 10000000 := le_trans hcap (min_le_right _ _)
      exact le_min (by omega) (by omega)
  refine ⟨hA, hC, ?_⟩
  intro hjcap
  have hj1 : (j : Int) < mx := by
    have := lt_of_lt_of_le hjcap (min_le_left _ _)
    omega
  have hj2 : j < 10000000 := lt_of_lt_of_le hjcap (min_le_right _ _)
  have herr : ((loopBody n)^[j] (initialState n a b)).error ≤ acc := by
    by_contra hgt
    apply hstop
    refine ⟨?_, ?_, not_le.mp hgt⟩
    · rw [(iterate_fields n _ hne j).1, hit]
      omega
    · rw [(iterate_fields n _ hne j).1, hit]
      omega
  obtain ⟨k, hk1, hk2, hk3, hk4⟩ := iterate_error_le n a b acc hacc j herr
  have hjk : j ≤ k := hA k hk1 (by omega) hk3 hk4
  have hkj : k = j := by omega
  subst hkj
  exact ⟨hk1, hk3, hk4⟩

/-- Claim C5, as amended (stop on convergence).  For every validated
configuration (`n ≥ 3`, `tolerance > 0`, `maxIterations > 0`) whose tolerance
is below the initial error `1`: if there is a least pass count `k0`, a positive
multiple of 10,000 not exceeding `min maxIterations 10000000`, at which the
convergence check computes an error within the tolerance, the final
`iterationCount` is `k0`; if there is no such count, the final
`iterationCount` is the cap `min maxIterations 10000000`; and the returned
state is exactly the state after `iterationCount` passes, so no relaxation
pass runs after the deciding check. -/
theorem C5_stop_on_convergence (n : Nat) (_hn : 3 ≤ n) (acc : ℚ) (_hacc0 : 0 < acc)
    (hacc1 : acc < 1) (mx : Int) (_hmx : 0 < mx) (a b : Buffer) :
    (∀ k0, IsLeast {k : Nat | 1 ≤ k ∧ k ≤ min mx.toNat 10000000 ∧ 10000 ∣ k
          ∧ checkError n a b k ≤ acc} k0 →
        (solve n acc mx a b).iteration = k0)
    ∧ ((¬ ∃ k, 1 ≤ k ∧ k ≤ min mx.toNat 10000000 ∧ 10000 ∣ k ∧ checkError n a b k ≤ acc) →
        (solve n acc mx a b).iteration = min mx.toNat 10000000)
    ∧ solve n acc mx a b
        = (loopBody n)^[(solve n acc mx a b).iteration] (initialState n a b) := by
  obtain ⟨hA, hC, hB⟩ := solve_first_converged n acc hacc1 mx a b
  refine ⟨?_, ?_, ?_⟩
  · rintro k0 ⟨⟨hk1, hk2, hk3, hk4⟩, hleast⟩
    have h1 := hA k0 hk1 hk2 hk3 hk4
    by_contra hne
    have hlt : (solve n acc mx a b).iteration < k0 := lt_of_le_of_ne h1 hne
    obtain ⟨g1, g2, g3⟩ := hB (by omega)
    have h2 : k0 ≤ (solve n acc mx a b).iteration := hleast ⟨g1, by omega, g2, g3⟩
    omega
  · intro hnone
    by_contra hne
    obtain ⟨g1, g2, g3⟩ := hB (lt_of_le_of_ne hC hne)
    exact hnone ⟨_, g1, hC, g2, g3⟩
  · obtain ⟨j, -, -, -, heq, hfin⟩ := solve_stops n acc mx a b
    rw [hfin]
    exact heq

/-- Claim C5, as stated, fails at `n = 3`, tolerance `1`, `maxIterations = 5`
(allocations holding `0` and `2`): the configuration is validated, no
convergence check with error within the tolerance exists up to the cap (and
the two buffers differ by `2` in the interior at the start), yet the final
`iterationCount` is `0`, not the cap `5`. -/
theorem C5_stop_on_convergence_counterexample :
    (3 ≤ 3 ∧ (0 : ℚ) < 1 ∧ (0 : Int) < 5)
    ∧ (¬ ∃ k, 1 ≤ k ∧ k ≤ min (5 : Int).toNat 10000000 ∧ 10000 ∣ k
        ∧ checkError 3 (fun _ => 0) (fun _ => 2) k ≤ 1)
    ∧ errorReduction 3 (initialState 3 (fun _ => 0) (fun _ => 2)) = 2
    ∧ (solve 3 1 5 (fun _ => 0) (fun _ => 2)).iteration = 0
    ∧ (solve 3 1 5 (fun _ => 0) (fun _ => 2)).iteration ≠ min (5 : Int).toNat 10000000 := by
  have hcap : min (5 : Int).toNat 10000000 = 5 := by decide
  have hzero : (solve 3 1 5 (fun _ => 0) (fun _ => 2)).iteration = 0 := by
    unfold solve
    rw [whileLoop_of_not]
    · rfl
    · intro hc
      have h := hc.2.2
      rw [(initialState_fields 3 _ _).2.2.1] at h
      exact lt_irrefl _ h
  refine ⟨⟨le_refl 3, by norm_num, by decide⟩, ?_, ?_, hzero, ?_⟩
  · rw [hcap]
    rintro ⟨k, hk1, hk2, hk3, -⟩
    omega
  · simp [errorReduction, forLoop, loopBound, State.read, initialState, initializeMatrix,
      initializeEdgeStep, linearInterpolation, List.range', Function.update_apply]
  · rw [hzero, hcap]
    decide

/-! ## Which buffer is saved -/

/-- The pointers after `k` passes from the initial state: they are exchanged
once per pass, so `previousMatrix` (the buffer the last pass stored into)
names `currentMatrix` after an odd number of passes and `newMatrix` after an
even number. -/
theorem iterate_pointers (n : Nat) (a b : Buffer) (k : Nat) :
    (k % 2 = 1 → ((loopBody n)^[k] (initialState n a b)).previousMatrix = Ptr.current
        ∧ ((loopBody n)^[k] (initialState n a b)).updatedMatrix = Ptr.new)
    ∧ (k % 2 = 0 → ((loopBody n)^[k] (initialState n a b)).previousMatrix = Ptr.new
        ∧ ((loopBody n)^[k] (initialState n a b)).updatedMatrix = Ptr.current) := by
  induction k with
  | zero =>
    refine ⟨fun h => ?_, fun _ => ⟨rfl, rfl⟩⟩
    omega
  | succ k ih =>
    rw [Function.iterate_succ_apply']
    obtain ⟨-, hp, hu, -⟩ := loopBody_fields n ((loopBody n)^[k] (initialState n a b))
    rw [hp, hu]
    constructor
    · intro h
      obtain ⟨h1, h2⟩ := ih.2 (by omega)
      exact ⟨h2, h1⟩
    · intro h
      obtain ⟨h1, h2⟩ := ih.1 (by omega)
      exact ⟨h2, h1⟩

/-- The saved buffer is the one the last pass stored into exactly when the
final counter is odd; for an even counter the last pass stored into
`newMatrix`. -/
theorem solve_saved_parity (n : Nat) (acc : ℚ) (mx : Int) (a b : Buffer) :
    ((solve n acc mx a b).iteration % 2 = 1 →
        lastWritten (solve n acc mx a b) = savedMatrix (solve n acc mx a b))
    ∧ ((solve n acc mx a b).iteration % 2 = 0 →
        lastWritten (solve n acc mx a b) = (solve n acc mx a b).newMatrix) := by
  obtain ⟨j, -, -, -, heq, hfin⟩ := solve_stops n acc mx a b
  obtain ⟨hodd, heven⟩ := iterate_pointers n a b j
  rw [hfin]
  constructor
  · intro h
    unfold lastWritten savedMatrix
    rw [heq, (hodd h).1]
    rfl
  · intro h
    unfold lastWritten
    rw [heq, (heven h).1]
    rfl

/-- Cell `(1,1)` of `newMatrix` after two passes on a 4 x 4 grid whose
allocations were all zero. -/
theorem two_passes_new :
    ((loopBody 4)^[2] (initialState 4 (fun _ => 0) (fun _ => 0))).read Ptr.new (1 * 4 + 1)
      = 35 / 3 := by
  simp [loopBody, convergenceCheck, swapPointers, relaxation, forLoop, loopBound, relaxCell,
    State.read, State.write, initialState, initializeMatrix, initializeEdgeStep,
    linearInterpolation, List.range', Function.update_apply]
  norm_num

/-- Cell `(1,1)` of `currentMatrix` after the same two passes. -/
theorem two_passes_current :
    ((loopBody 4)^[2] (initialState 4 (fun _ => 0) (fun _ => 0))).currentMatrix (1 * 4 + 1)
      = 20 / 3 := by
  simp [loopBody, convergenceCheck, swapPointers, relaxation, forLoop, loopBound, relaxCell,
    State.read, State.write, initialState, initializeMatrix, initializeEdgeStep,
    linearInterpolation, List.range', Function.update_apply]
  norm_num

/-- Claim C9 (evaluation at a failing input).  The solve with `n = 4`, tolerance
`1e-6`, `maxIterations = 2` and all-zero allocations ends with
`iterationCount = 2`; its second pass stored into `newMatrix`
(`previousMatrix` names it after the exchange), which holds `35/3` at cell
`(1,1)`, while the buffer handed to `saveMatrixToFile` is `currentMatrix`,
which still holds the value `20/3` stored by the first pass. -/
theorem C9_saved_buffer_stale :
    (solve 4 (1 / 1000000) 2 (fun _ => 0) (fun _ => 0)).iteration = 2
    ∧ (solve 4 (1 / 1000000) 2 (fun _ => 0) (fun _ => 0)).previousMatrix = Ptr.new
    ∧ lastWritten (solve 4 (1 / 1000000) 2 (fun _ => 0) (fun _ => 0)) (1 * 4 + 1) = 35 / 3
    ∧ savedMatrix (solve 4 (1 / 1000000) 2 (fun _ => 0) (fun _ => 0)) (1 * 4 + 1) = 20 / 3 := by
  have heq := (solve_cap_small 4 (1 / 1000000) (by norm_num) 2 (by decide)
    (by decide) (fun _ => 0) (fun _ => 0)).1
  have h2 : (2 : Int).toNat = 2 := by decide
  rw [h2] at heq
  have key : ∀ s : State, s = (loopBody 4)^[2] (initialState 4 (fun _ => 0) (fun _ => 0)) →
      s.iteration = 2 ∧ s.previousMatrix = Ptr.new ∧ lastWritten s (1 * 4 + 1) = 35 / 3
        ∧ savedMatrix s (1 * 4 + 1) = 20 / 3 := by
    intro s hs
    have hptr := ((iterate_pointers 4 (fun _ => 0) (fun _ => 0) 2).2 (by decide)).1
    have hcount := (iterate_fields 4 _ (initialState_fields 4 (fun _ => 0) (fun _ => 0)).1 2).1
    rw [← hs] at hptr hcount
    refine ⟨hcount, hptr, ?_, ?_⟩
    · unfold lastWritten
      rw [hptr, hs]
      exact two_passes_new
    · unfold savedMatrix
      rw [hs]
      exact two_passes_current
  exact key _ heq

/-! ## Harmonic start -/

/-- A relaxation pass that reads a harmonic grid `g` stores `g` itself in the
interior, and the reduction that follows returns `0`. -/
theorem harmonic_pass (n : Nat) (hn : 3 ≤ n) (g : Buffer)
    (hg : ∀ r c, 1 ≤ r → r ≤ n - 2 → 1 ≤ c → c ≤ n - 2 →
      g (r * n + c) = (g (r * n + (c + 1)) + g (r * n + (c - 1)) + g ((r - 1) * n + c)
        + g ((r + 1) * n + c)) / 4)
    (s : State) (hne : s.previousMatrix ≠ s.updatedMatrix)
    (hprev : ∀ k, s.read s.previousMatrix k = g k) :
    (∀ r c, 1 ≤ r → r ≤ n - 2 → 1 ≤ c → c ≤ n - 2 →
        (relaxation n s).read s.updatedMatrix (r * n + c) = g (r * n + c))
    ∧ errorReduction n (relaxation n s) = 0 := by
  have hint : ∀ r c, 1 ≤ r → r ≤ n - 2 → 1 ≤ c → c ≤ n - 2 →
      (relaxation n s).read s.updatedMatrix (r * n + c) = g (r * n + c) := by
    intro r c hr1 hr2 hc1 hc2
    rw [relaxation_interior n hn s hne r c hr1 hr2 hc1 hc2, hprev, hprev, hprev, hprev]
    exact (hg r c hr1 hr2 hc1 hc2).symm
  refine ⟨hint, ?_⟩
  obtain ⟨hp, hu, -, -, -⟩ := relaxation_fields n s
  rw [errorReduction_eq_zero_iff n hn, hp, hu]
  intro r c hr1 hr2 hc1 hc2
  rw [hint r c hr1 hr2 hc1 hc2, (relaxation_spec n s hne).1.2.2.2.2.2, hprev]

/-- From a state whose two buffers both hold a harmonic grid `g`, every number
of passes leaves both buffers holding `g`. -/
theorem harmonic_iterate (n : Nat) (hn : 3 ≤ n) (g : Buffer)
    (hg : ∀ r c, 1 ≤ r → r ≤ n - 2 → 1 ≤ c → c ≤ n - 2 →
      g (r * n + c) = (g (r * n + (c + 1)) + g (r * n + (c - 1)) + g ((r - 1) * n + c)
        + g ((r + 1) * n + c)) / 4)
    (s : State) (hne : s.previousMatrix ≠ s.updatedMatrix)
    (hall : ∀ p k, s.read p k = g k) (m : Nat) :
    ∀ p k, ((loopBody n)^[m] s).read p k = g k := by
  induction m with
  | zero => exact hall
  | succ m ih =>
    intro p k
    have hne2 := (iterate_fields n s hne m).2
    rw [Function.iterate_succ_apply', (loopBody_fields n _).1]
    by_cases hvis : ∃ i j, 1 ≤ i ∧ i ≤ n - 2 ∧ 1 ≤ j ∧ j ≤ n - 2 ∧ k = i * n + j
    · obtain ⟨i, j, hi1, hi2, hj1, hj2, rfl⟩ := hvis
      by_cases hp : p = ((loopBody n)^[m] s).previousMatrix
      · rw [hp, (relaxation_spec n _ hne2).1.2.2.2.2.2, ih]
      · have hu : p = ((loopBody n)^[m] s).updatedMatrix := by
          revert hp hne2
          cases p <;> cases ((loopBody n)^[m] s).previousMatrix
            <;> cases ((loopBody n)^[m] s).updatedMatrix <;> simp
        rw [hu]
        exact (harmonic_pass n hn g hg _ hne2 (ih _)).1 i j hi1 hi2 hj1 hj2
    · rw [relaxation_frame n (by omega) _ hne2 p k
        (fun i j hi1 hi2 hj1 hj2 hk => hvis ⟨i, j, hi1, hi2, hj1, hj2, hk⟩), ih]

/-- A loop started on two copies of a harmonic grid, with tolerance in
`(0, 1)` and `maxIterations ≥ 10000`, stops at the first convergence check
(pass 10,000) with error `0`. -/
theorem harmonic_solve (n : Nat) (hn : 3 ≤ n) (g : Buffer)
    (hg : ∀ r c, 1 ≤ r → r ≤ n - 2 → 1 ≤ c → c ≤ n - 2 →
      g (r * n + c) = (g (r * n + (c + 1)) + g (r * n + (c - 1)) + g ((r - 1) * n + c)
        + g ((r + 1) * n + c)) / 4)
    (acc : ℚ) (hacc0 : 0 < acc) (hacc1 : acc < 1) (mx : Int) (hmx : 10000 ≤ mx)
    (s : State) (hne : s.previousMatrix ≠ s.updatedMatrix) (hit : s.iteration = 0)
    (herr : s.error = 1) (hlog : s.log = []) (hall : ∀ p k, s.read p k = g k) :
    (whileLoop n acc mx s).iteration = 10000 ∧ (whileLoop n acc mx s).error = 0
      ∧ (whileLoop n acc mx s).log = [(10000, 0)] := by
  have hlast : (loopBody n)^[10000] s = loopBody n ((loopBody n)^[9999] s) :=
    Function.iterate_succ_apply' (loopBody n) 9999 s
  have hcount := (iterate_fields n s hne 9999).1
  have hne2 := (iterate_fields n s hne 9999).2
  have hfire : (((loopBody n)^[9999] s).iteration + 1) % 10000 = 0 := by
    rw [hcount, hit]
  have hzero : errorReduction n (relaxation n ((loopBody n)^[9999] s)) = 0 :=
    (harmonic_pass n hn g hg _ hne2 (harmonic_iterate n hn g hg s hne hall 9999 _)).2
  obtain ⟨he, hl⟩ := loopBody_checked n _ hfire
  rw [hzero, (iterate_before_first_check n s hne hit 9999 (by omega)).2, hlog, hcount, hit]
    at hl
  rw [hzero] at he
  have heq : whileLoop n acc mx s = (loopBody n)^[10000] s := by
    apply whileLoop_eq_iterate
    · intro m hm
      refine ⟨?_, ?_, ?_⟩
      · rw [(iterate_fields n s hne m).1, hit]
        omega
      · rw [(iterate_fields n s hne m).1, hit]
        omega
      · rw [(iterate_before_first_check n s hne hit m hm).1, herr]
        exact hacc1
    · intro hc
      have h := hc.2.2
      rw [hlast, he] at h
      exact absurd hacc0 (not_lt.mpr (le_of_lt h))
  rw [heq]
  refine ⟨?_, ?_, ?_⟩
  · rw [(iterate_fields n s hne 10000).1, hit]
  · rw [hlast, he]
  · rw [hlast, hl]
    rfl

/-- The 3 x 3 grid obtained by `initializeMatrix` from an allocation holding
`20` everywhere is harmonic: its centre `20` is the mean of 25, 15, 15, 25. -/
theorem harmonic_example :
    ∀ r c, 1 ≤ r → r ≤ 3 - 2 → 1 ≤ c → c ≤ 3 - 2 →
      (initializeMatrix (fun _ => 20) 3) (r * 3 + c)
        = ((initializeMatrix (fun _ => 20) 3) (r * 3 + (c + 1))
          + (initializeMatrix (fun _ => 20) 3) (r * 3 + (c - 1))
          + (initializeMatrix (fun _ => 20) 3) ((r - 1) * 3 + c)
          + (initializeMatrix (fun _ => 20) 3) ((r + 1) * 3 + c)) / 4 := by
  intro r c hr1 hr2 hc1 hc2
  have hr : r = 1 := by omega
  have hc : c = 1 := by omega
  subst hr
  subst hc
  simp [initializeMatrix, initializeEdgeStep, linearInterpolation, forLoop, loopBound,
    List.range', Function.update_apply]
  norm_num

/-- Claim C10, as amended (harmonic start).  For every `n ≥ 3` and every grid
`g` in which each interior cell equals the average of its four orthogonal
neighbours: a relaxation pass that reads `g` stores interior values equal to
those of `g`, so the convergence monitor then returns `0`; and a loop entered
with both buffers holding `g`, the program's initial counter, error and log,
a tolerance with `0 < tolerance < 1` and `maxIterations ≥ 10000` terminates at
the first convergence check, i.e. with `iterationCount = 10000`, error `0` and
the single progress line `(10000, 0)`. -/
theorem C10_harmonic_start (n : Nat) (hn : 3 ≤ n) (g : Buffer)
    (hg : ∀ r c, 1 ≤ r → r ≤ n - 2 → 1 ≤ c → c ≤ n - 2 →
      g (r * n + c) = (g (r * n + (c + 1)) + g (r * n + (c - 1)) + g ((r - 1) * n + c)
        + g ((r + 1) * n + c)) / 4) :
    (∀ s : State, s.previousMatrix ≠ s.updatedMatrix →
        (∀ k, s.read s.previousMatrix k = g k) →
        (∀ r c, 1 ≤ r → r ≤ n - 2 → 1 ≤ c → c ≤ n - 2 →
          (relaxation n s).read s.updatedMatrix (r * n + c) = g (r * n + c))
        ∧ errorReduction n (relaxation n s) = 0)
    ∧ (∀ (acc : ℚ) (mx : Int) (s : State), 0 < acc → acc < 1 → 10000 ≤ mx →
        s.previousMatrix ≠ s.updatedMatrix → s.iteration = 0 → s.error = 1 → s.log = [] →
        (∀ p k, s.read p k = g k) →
        (whileLoop n acc mx s).iteration = 10000 ∧ (whileLoop n acc mx s).error = 0
          ∧ (whileLoop n acc mx s).log = [(10000, 0)]) :=
  ⟨fun s hne hprev => harmonic_pass n hn g hg s hne hprev,
    fun acc mx s h0 h1 hmx hne hit herr hlog hall =>
      harmonic_solve n hn g hg acc h0 h1 mx hmx s hne hit herr hlog hall⟩

/-- Instance of claim C10, as amended: the program's own run for `n = 3` with
both allocations holding `20`, the default tolerance `1e-6` and the default
`maxIterations = 1000000` stops at pass 10,000 with error `0`. -/
theorem C10_harmonic_start_witness :
    (solve 3 (1 / 1000000) 1000000 (fun _ => 20) (fun _ => 20)).iteration = 10000
      ∧ (solve 3 (1 / 1000000) 1000000 (fun _ => 20) (fun _ => 20)).error = 0
      ∧ (solve 3 (1 / 1000000) 1000000 (fun _ => 20) (fun _ => 20)).log = [(10000, 0)] := by
  obtain ⟨hne, hit, herr, hlog⟩ := initialState_fields 3 (fun _ => 20) (fun _ => 20)
  exact (C10_harmonic_start 3 (by decide) (initializeMatrix (fun _ => 20) 3)
    harmonic_example).2 (1 / 1000000) 1000000 (initialState 3 (fun _ => 20) (fun _ => 20))
    (by norm_num) (by norm_num) (by decide) hne hit herr hlog
    (fun p k => by cases p <;> rfl)

/-- Claim C10, as stated, fails for a tolerance of `1`: on the harmonic 3 x 3
grid of `harmonic_example`, with `tolerance = 1 > 0` and
`maxIterations = 10000`, the solve performs no pass and no convergence check:
it ends with `iterationCount = 0`, error `1` and an empty log, not at the
first convergence check. -/
theorem C10_harmonic_start_counterexample :
    (∀ r c, 1 ≤ r → r ≤ 3 - 2 → 1 ≤ c → c ≤ 3 - 2 →
      (initializeMatrix (fun _ => 20) 3) (r * 3 + c)
        = ((initializeMatrix (fun _ => 20) 3) (r * 3 + (c + 1))
          + (initializeMatrix (fun _ => 20) 3) (r * 3 + (c - 1))
          + (initializeMatrix (fun _ => 20) 3) ((r - 1) * 3 + c)
          + (initializeMatrix (fun _ => 20) 3) ((r + 1) * 3 + c)) / 4)
    ∧ (0 : ℚ) < 1 ∧ (10000 : Int) ≤ 10000
    ∧ (solve 3 1 10000 (fun _ => 20) (fun _ => 20)).iteration = 0
    ∧ (solve 3 1 10000 (fun _ => 20) (fun _ => 20)).iteration ≠ 10000
    ∧ (solve 3 1 10000 (fun _ => 20) (fun _ => 20)).error = 1
    ∧ (solve 3 1 10000 (fun _ => 20) (fun _ => 20)).log = [] := by
  obtain ⟨-, hit, herr, hlog⟩ := initialState_fields 3 (fun _ => 20) (fun _ => 20)
  have hstay : solve 3 1 10000 (fun _ => 20) (fun _ => 20)
      = initialState 3 (fun _ => 20) (fun _ => 20) := by
    unfold solve
    apply whileLoop_of_not
    intro hc
    have h := hc.2.2
    rw [herr] at h
    exact lt_irrefl _ h
  have key : ∀ s : State, s = initialState 3 (fun _ => 20) (fun _ => 20) →
      s.iteration = 0 ∧ s.iteration ≠ 10000 ∧ s.error = 1 ∧ s.log = [] := by
    intro s hs
    rw [hs, hit]
    exact ⟨rfl, by decide, herr, hlog⟩
  exact ⟨harmonic_example, by norm_num, le_refl _, key _ hstay⟩

/-! ## The 3 x 3 grid -/

/-- Claim C11 (small fixed case).  For `n = 3` and any prior content of the two
allocations: the four boundary midpoints hold 15, 15, 25, 25; after one pass
(which stores into `currentMatrix`) the single interior cell of that buffer
equals their arithmetic mean, `20`; after two passes both buffers hold `20`
there, and the monitor's error is `0`, both as the check of pass 2 would
compute it and on the state after pass 2. -/
theorem C11_small_fixed_case (a b : Buffer) :
    ((initializeMatrix b 3) (0 * 3 + 1) = 15 ∧ (initializeMatrix b 3) (1 * 3 + 0) = 15
      ∧ (initializeMatrix b 3) (1 * 3 + 2) = 25 ∧ (initializeMatrix b 3) (2 * 3 + 1) = 25)
    ∧ ((loopBody 3)^[1] (initialState 3 a b)).updatedMatrix = Ptr.new
    ∧ ((loopBody 3)^[1] (initialState 3 a b)).currentMatrix (1 * 3 + 1) = (15 + 15 + 25 + 25) / 4
    ∧ ((loopBody 3)^[1] (initialState 3 a b)).currentMatrix (1 * 3 + 1) = 20
    ∧ ((loopBody 3)^[2] (initialState 3 a b)).currentMatrix (1 * 3 + 1) = 20
    ∧ ((loopBody 3)^[2] (initialState 3 a b)).newMatrix (1 * 3 + 1) = 20
    ∧ checkError 3 a b 2 = 0
    ∧ errorReduction 3 ((loopBody 3)^[2] (initialState 3 a b)) = 0 := by
  refine ⟨⟨?_, ?_, ?_, ?_⟩, ?_, ?_, ?_, ?_, ?_, ?_, ?_⟩
  all_goals
    simp [checkError, errorReduction, loopBody, convergenceCheck, swapPointers, relaxation,
      forLoop, loopBound, relaxCell, State.read, State.write, initialState, initializeMatrix,
      initializeEdgeStep, linearInterpolation, List.range', Function.update_apply]
  all_goals norm_num

/-! ## Dependence on the prior content of the allocations -/

/-- Cell `(1,1)` of `currentMatrix` after one pass on a 4 x 4 grid, the
`newMatrix` allocation having held `0` everywhere. -/
theorem one_pass_from_zero :
    ((loopBody 4)^[1] (initialState 4 (fun _ => 0) (fun _ => 0))).currentMatrix (1 * 4 + 1)
      = 20 / 3 := by
  simp [loopBody, convergenceCheck, swapPointers, relaxation, forLoop, loopBound, relaxCell,
    State.read, State.write, initialState, initializeMatrix, initializeEdgeStep,
    linearInterpolation, List.range', Function.update_apply]
  norm_num

/-- The same cell, the `newMatrix` allocation having held `4` everywhere. -/
theorem one_pass_from_four :
    ((loopBody 4)^[1] (initialState 4 (fun _ => 0) (fun _ => 4))).currentMatrix (1 * 4 + 1)
      = 26 / 3 := by
  simp [loopBody, convergenceCheck, swapPointers, relaxation, forLoop, loopBound, relaxCell,
    State.read, State.write, initialState, initializeMatrix, initializeEdgeStep,
    linearInterpolation, List.range', Function.update_apply]
  norm_num

/-- Claim C12 (evaluation at a failing input).  Two runs with the same
configuration (`n = 4`, tolerance `1e-6`, `maxIterations = 1`) that differ only
in what the fresh `newMatrix` allocation held (`0` everywhere, `4` everywhere)
both end with `iterationCount = 1`, but the saved grid holds `20/3` at cell
`(1,1)` in the first run and `26/3` in the second: the only pass read the
interior of `newMatrix`, which `initializeMatrix` had not written. -/
theorem C12_raw_content_reaches_output :
    (solve 4 (1 / 1000000) 1 (fun _ => 0) (fun _ => 0)).iteration = 1
    ∧ (solve 4 (1 / 1000000) 1 (fun _ => 0) (fun _ => 4)).iteration = 1
    ∧ savedMatrix (solve 4 (1 / 1000000) 1 (fun _ => 0) (fun _ => 0)) (1 * 4 + 1) = 20 / 3
    ∧ savedMatrix (solve 4 (1 / 1000000) 1 (fun _ => 0) (fun _ => 4)) (1 * 4 + 1) = 26 / 3 := by
  have h1 : (1 : Int).toNat = 1 := by decide
  have heq0 := (solve_cap_small 4 (1 / 1000000) (by norm_num) 1 (by decide) (by decide)
    (fun _ => 0) (fun _ => 0)).1
  have heq4 := (solve_cap_small 4 (1 / 1000000) (by norm_num) 1 (by decide) (by decide)
    (fun _ => 0) (fun _ => 4)).1
  rw [h1] at heq0 heq4
  have key : ∀ (s : State) (b : Buffer) (v : ℚ),
      s = (loopBody 4)^[1] (initialState 4 (fun _ => 0) b) →
      ((loopBody 4)^[1] (initialState 4 (fun _ => 0) b)).currentMatrix (1 * 4 + 1) = v →
      s.iteration = 1 ∧ savedMatrix s (1 * 4 + 1) = v := by
    intro s b v hs hv
    have hcount := (iterate_fields 4 _ (initialState_fields 4 (fun _ => 0) b).1 1).1
    rw [← hs] at hcount hv
    exact ⟨hcount, hv⟩
  obtain ⟨a1, a2⟩ := key _ _ _ heq0 one_pass_from_zero
  obtain ⟨b1, b2⟩ := key _ _ _ heq4 one_pass_from_four
  exact ⟨a1, b1, a2, b2⟩

/-! ## Configuration handling -/

/-- The stored error is never negative along a run that starts with a
non-negative error. -/
theorem iterate_error_nonneg (n : Nat) (s : State) (h0 : 0 ≤ s.error) (m : Nat) :
    0 ≤ ((loopBody n)^[m] s).error := by
  induction m with
  | zero => exact h0
  | succ m ih =>
    rw [Function.iterate_succ_apply']
    by_cases hfire : (((loopBody n)^[m] s).iteration + 1) % 10000 = 0
    · rw [(loopBody_checked n _ hfire).1]
      exact (errorReduction_spec n _).1
    · rw [(loopBody_unchecked n _ hfire).1]
      exact ih

/-- With a negative tolerance the loop runs until one of the two caps. -/
theorem solve_negative_tolerance (n : Nat) (acc : ℚ) (hacc : acc < 0) (mx : Int)
    (a b : Buffer) :
    (solve n acc mx a b).iteration = min mx.toNat 10000000 := by
  obtain ⟨hne, hit, herr, -⟩ := initialState_fields n a b
  have hpos : ∀ m, ((loopBody n)^[m] (initialState n a b)).error > acc := by
    intro m
    have h := iterate_error_nonneg n (initialState n a b) (by rw [herr]; norm_num) m
    exact lt_of_lt_of_le hacc h
  have heq : solve n acc mx a b
      = (loopBody n)^[min mx.toNat 10000000] (initialState n a b) := by
    unfold solve
    apply whileLoop_eq_iterate
    · intro m hm
      have h1 : m < mx.toNat := lt_of_lt_of_le hm (min_le_left _ _)
      have h2 : m < 10000000 := lt_of_lt_of_le hm (min_le_right _ _)
      refine ⟨?_, ?_, hpos m⟩
      · rw [(iterate_fields n _ hne m).1, hit]
        omega
      · rw [(iterate_fields n _ hne m).1, hit]
        omega
    · intro hc
      have h1 := hc.1
      have h2 := hc.2.1
      rw [(iterate_fields n _ hne _).1, hit] at h1 h2
      have h3 : min mx.toNat 10000000 < mx.toNat := by omega
      have h4 : min mx.toNat 10000000 < min mx.toNat 10000000 := lt_min h3 (by omega)
      exact lt_irrefl _ h4
  rw [heq, (iterate_fields n _ hne _).1, hit, Nat.zero_add]

/-- For sizes 1 and 2 the loop ranges are empty: the reduction returns `0`. -/
theorem errorReduction_small (n : Nat) (hn : n = 1 ∨ n = 2) (s : State) :
    errorReduction n s = 0 := by
  rcases hn with rfl | rfl <;> rfl

/-- With size 1 or 2 and a tolerance in `[0, 1)` the loop runs until the first
convergence check (pass 10,000), whose error is `0`, or until `maxIterations`
if that comes first. -/
theorem solve_small_size (n : Nat) (hn : n = 1 ∨ n = 2) (acc : ℚ) (h0 : 0 ≤ acc)
    (h1 : acc < 1) (mx : Int) (a b : Buffer) :
    (solve n acc mx a b).iteration = min mx.toNat 10000 := by
  obtain ⟨hne, hit, herr, -⟩ := initialState_fields n a b
  have heq : solve n acc mx a b = (loopBody n)^[min mx.toNat 10000] (initialState n a b) := by
    unfold solve
    apply whileLoop_eq_iterate
    · intro m hm
      have hm1 : m < mx.toNat := lt_of_lt_of_le hm (min_le_left _ _)
      have hm2 : m < 10000 := lt_of_lt_of_le hm (min_le_right _ _)
      refine ⟨?_, ?_, ?_⟩
      · rw [(iterate_fields n _ hne m).1, hit]
        omega
      · rw [(iterate_fields n _ hne m).1, hit]
        omega
      · rw [(iterate_before_first_check n _ hne hit m hm2).1, herr]
        exact h1
    · intro hc
      have c1 := hc.1
      have c3 := hc.2.2
      rw [(iterate_fields n _ hne _).1, hit] at c1
      rcases le_total mx.toNat 10000 with hle | hle
      · rw [min_eq_left hle] at c1
        omega
      · rw [min_eq_right hle] at c3
        have hlast : (loopBody n)^[10000] (initialState n a b)
            = loopBody n ((loopBody n)^[9999] (initialState n a b)) :=
          Function.iterate_succ_apply' (loopBody n) 9999 _
        have hfire : (((loopBody n)^[9999] (initialState n a b)).iteration + 1) % 10000
            = 0 := by
          rw [(iterate_fields n _ hne 9999).1, hit]
        rw [hlast, (loopBody_checked n _ hfire).1, errorReduction_small n hn] at c3
        exact absurd h0 (not_le.mpr c3)
  rw [heq, (iterate_fields n _ hne _).1, hit, Nat.zero_add]

/-- Without `--help` and for a size with `1 ≤ size ≤ 46340`, `main` runs the
solve on that size. -/
theorem mainProgram_runs (n : Int) (hn1 : 1 ≤ n) (hn2 : n ≤ 46340) (acc : ℚ) (mx : Int)
    (a b : Buffer) :
    mainProgram false n acc mx a b = Outcome.finished (solve n.toNat acc mx a b) := by
  have hsq : n * n ≤ 2147483647 := by nlinarith
  unfold mainProgram
  rw [if_neg (by decide), if_pos ⟨hn1, hsq⟩]

/-- For a size `n ≥ 1` every offset stored to by `initializeMatrix` (the four
corners and, for `1 ≤ i < n - 1`, the four edge cells of pass `i`) lies below
the allocation length `n * n`. -/
theorem initializeMatrix_stores_in_bounds (n : Nat) (hn : 1 ≤ n) :
    (0 < n * n ∧ n - 1 < n * n ∧ (n - 1) * n + (n - 1) < n * n ∧ (n - 1) * n < n * n)
    ∧ (∀ i, 1 ≤ i → i < n - 1 →
        0 * n + i < n * n ∧ i * n + 0 < n * n ∧ i * n + (n - 1) < n * n
          ∧ (n - 1) * n + i < n * n) := by
  have hsq : (n - 1) * n + n = n * n := by
    obtain ⟨m, rfl⟩ : ∃ m, n = m + 1 := ⟨n - 1, by omega⟩
    rw [Nat.add_sub_cancel, Nat.succ_mul]
  refine ⟨⟨by omega, by omega, by omega, by omega⟩, ?_⟩
  intro i hi1 hi2
  obtain ⟨hX1, hX2⟩ := edge_offsets n i hi1 (by omega) (by omega)
  exact ⟨by omega, by omega, by omega, by omega⟩

/-- Without `--help`, a size below 1 or above 46340 gives a run without
defined behaviour; it is not answered with the usage outcome. -/
theorem mainProgram_out_of_range (n : Int) (hn : n < 1 ∨ 46340 < n) (acc : ℚ) (mx : Int)
    (a b : Buffer) :
    mainProgram false n acc mx a b = Outcome.undefinedBehaviour := by
  have hcond : ¬ (1 ≤ n ∧ n * n ≤ 2147483647) := by
    rintro ⟨h1, h2⟩
    rcases hn with h | h
    · omega
    · nlinarith
  unfold mainProgram
  rw [if_neg (by decide), if_neg hcond]

/-- Claim C13, as amended.  `main` does not reject a configuration for being
degenerate.  For every size `n` in the range in which the run is defined
(`1 ≤ n ≤ 46340`, so `n = 1` and `n = 2` included), every tolerance
(non-positive ones included) and every `maxIterations`: without `--help` the
run is the solve on the given values, which is a number of loop passes from the
state in which both buffers have been initialised; the usage outcome occurs
exactly when `--help` is given; with a negative tolerance the loop runs
`min maxIterations 10000000` passes; and with size 1 or 2 and a tolerance in
`[0, 1)` it runs `min maxIterations 10000` passes. -/
theorem C13_no_validation (n : Int) (hn1 : 1 ≤ n) (hn2 : n ≤ 46340) (acc : ℚ) (mx : Int)
    (a b : Buffer) :
    mainProgram false n acc mx a b = Outcome.finished (solve n.toNat acc mx a b)
    ∧ (∀ help : Bool, mainProgram help n acc mx a b = Outcome.usage ↔ help = true)
    ∧ solve n.toNat acc mx a b
        = (loopBody n.toNat)^[(solve n.toNat acc mx a b).iteration] (initialState n.toNat a b)
    ∧ (acc < 0 → (solve n.toNat acc mx a b).iteration = min mx.toNat 10000000)
    ∧ (n ≤ 2 → 0 ≤ acc → acc < 1 →
        (solve n.toNat acc mx a b).iteration = min mx.toNat 10000) := by
  have hrun := mainProgram_runs n hn1 hn2 acc mx a b
  refine ⟨hrun, ?_, ?_, fun h => solve_negative_tolerance n.toNat acc h mx a b, ?_⟩
  · intro help
    cases help
    · rw [hrun]
      constructor
      · intro h
        cases h
      · intro h
        cases h
    · exact ⟨fun _ => rfl, fun _ => rfl⟩
  · obtain ⟨j, -, -, -, heq, hfin⟩ := solve_stops n.toNat acc mx a b
    rw [hfin]
    exact heq
  · intro hn3 h0 h1
    exact solve_small_size n.toNat (by omega) acc h0 h1 mx a b

/-- Instance of claim C13, as amended: size 2 with the default tolerance
`1e-6` and the default `maxIterations = 1000000` is run, for 10,000 passes, and
size 2 with tolerance `-1` and `maxIterations = 7` is run for 7 passes. -/
theorem C13_no_validation_witness :
    mainProgram false 2 (1 / 1000000) 1000000 (fun _ => 0) (fun _ => 0)
        = Outcome.finished (solve 2 (1 / 1000000) 1000000 (fun _ => 0) (fun _ => 0))
      ∧ (solve 2 (1 / 1000000) 1000000 (fun _ => 0) (fun _ => 0)).iteration = 10000
      ∧ (solve 2 (-1) 7 (fun _ => 0) (fun _ => 0)).iteration = 7 := by
  obtain ⟨hrun, -, -, -, hsmall⟩ := C13_no_validation 2 (by decide) (by decide) (1 / 1000000)
    1000000 (fun _ => 0) (fun _ => 0)
  have hneg := (C13_no_validation 2 (by decide) (by decide) (-1) 7 (fun _ => 0)
    (fun _ => 0)).2.2.2.1 (by norm_num)
  have h2 : (2 : Int).toNat = 2 := by decide
  have hcap : min (1000000 : Int).toNat 10000 = 10000 := by decide
  have h7 : min (7 : Int).toNat 10000000 = 7 := by decide
  have hs := hsmall (by decide) (by norm_num) (by norm_num)
  rw [h2] at hrun hs hneg
  rw [hcap] at hs
  rw [h7] at hneg
  exact ⟨hrun, hs, hneg⟩

/-- Claim C13, as stated, fails: size `2 < 3` (default tolerance and
`maxIterations`) is not answered with the usage outcome, and neither is
tolerance `0` with size 3 and `maxIterations = 100`, for which the solve is
entered and 100 relaxation passes are run. -/
theorem C13_degenerate_rejected_counterexample :
    ((2 : Int) < 3 ∧ mainProgram false 2 (1 / 1000000) 1000000 (fun _ => 0) (fun _ => 0)
        ≠ Outcome.usage)
    ∧ ((0 : ℚ) ≤ 0 ∧ mainProgram false 3 0 100 (fun _ => 0) (fun _ => 0) ≠ Outcome.usage
        ∧ mainProgram false 3 0 100 (fun _ => 0) (fun _ => 0)
            = Outcome.finished (solve 3 0 100 (fun _ => 0) (fun _ => 0))
        ∧ ((solve 3 0 100 (fun _ => 0) (fun _ => 0)).iteration : Int) = 100) := by
  have hrun2 := mainProgram_runs 2 (by decide) (by decide) (1 / 1000000) 1000000 (fun _ => 0)
    (fun _ => 0)
  have hrun3 := mainProgram_runs 3 (by decide) (by decide) 0 100 (fun _ => 0) (fun _ => 0)
  have h3 : (3 : Int).toNat = 3 := by decide
  rw [h3] at hrun3
  refine ⟨⟨by decide, ?_⟩, le_refl _, ?_, hrun3, ?_⟩
  · rw [hrun2]
    intro h
    cases h
  · rw [hrun3]
    intro h
    cases h
  · exact (solve_cap_small 3 0 (by norm_num) 100 (by decide) (by decide) _ _).2.1

/-! ## The loop body and the specified transition -/

/-- The reduction depends only on the absolute differences it reads. -/
theorem errorReduction_congr (n : Nat) (s t : State)
    (h : ∀ k, |t.read t.updatedMatrix k - t.read t.previousMatrix k|
      = |s.read s.updatedMatrix k - s.read s.previousMatrix k|) :
    errorReduction n t = errorReduction n s := by
  unfold errorReduction
  simp only [h]

/-- The reduction is symmetric in the two buffers: it has the same value
after the pointers are exchanged and the counter is changed. -/
theorem errorReduction_swap (n : Nat) (s : State) (it : Nat) :
    errorReduction n (swapPointers { s with iteration := it }) = errorReduction n s := by
  apply errorReduction_congr
  intro k
  have h1 : ∀ p, (swapPointers { s with iteration := it }).read p k = s.read p k := by
    intro p
    cases p <;> rfl
  have h2 : (swapPointers { s with iteration := it }).updatedMatrix = s.previousMatrix := rfl
  have h3 : (swapPointers { s with iteration := it }).previousMatrix = s.updatedMatrix := rfl
  rw [h1, h1, h2, h3]
  exact abs_sub_comm _ _

/-- Claim C14 (the driver pass matches the specified transition).  For every
size and every state, one pass of the program's loop body (relax; if
`iteration + 1` is a multiple of 10,000 compute the error from the buffers not
yet swapped; swap; increment) yields the same state as the transition in the
specified order (relax; increment; swap; if the counter is a multiple of
10,000 run the monitor on the swapped buffers): the same counter, the same
pointers and buffer contents, the same error and the same progress lines. -/
theorem C14_driver_pass_refines (n : Nat) (s : State) :
    loopBody n s = specTransition n s
    ∧ (loopBody n s).iteration = (specTransition n s).iteration
    ∧ (loopBody n s).previousMatrix = (specTransition n s).previousMatrix
    ∧ (loopBody n s).updatedMatrix = (specTransition n s).updatedMatrix
    ∧ (∀ p k, (loopBody n s).read p k = (specTransition n s).read p k)
    ∧ (loopBody n s).error = (specTransition n s).error := by
  have hsw := errorReduction_swap n (relaxation n s) ((relaxation n s).iteration + 1)
  have heq : loopBody n s = specTransition n s := by
    unfold loopBody specTransition convergenceCheck
    dsimp only
    have hit : (swapPointers { relaxation n s with
        iteration := (relaxation n s).iteration + 1 }).iteration
        = (relaxation n s).iteration + 1 := rfl
    rw [hit, hsw]
    by_cases hfire : ((relaxation n s).iteration + 1) % 10000 = 0
    · rw [if_pos hfire, if_pos hfire]
      rfl
    · rw [if_neg hfire, if_neg hfire]
      rfl
  refine ⟨heq, ?_, ?_, ?_, ?_, ?_⟩
  · rw [heq]
  · rw [heq]
  · rw [heq]
  · intro p k
    rw [heq]
  · rw [heq]

/-- Instance of claim C14 in a pass in which the check fires: from
`sampleState` with the counter at 9,999 both orders give counter 10,000 and
error `5` (the centre cell goes from `16` in the buffer read to `21`). -/
theorem C14_driver_pass_refines_witness :
    (specTransition 3 { sampleState with iteration := 9999 }).iteration = 10000
    ∧ (specTransition 3 { sampleState with iteration := 9999 }).error = 5
    ∧ (loopBody 3 { sampleState with iteration := 9999 }).error = 5 := by
  obtain ⟨-, hit, -, -, -, herr⟩ :=
    C14_driver_pass_refines 3 { sampleState with iteration := 9999 }
  have h1 : (loopBody 3 { sampleState with iteration := 9999 }).iteration = 10000 :=
    (loopBody_fields 3 _).2.2.2
  have h2 : (loopBody 3 { sampleState with iteration := 9999 }).error = 5 := by
    rw [(loopBody_checked 3 { sampleState with iteration := 9999 } (by decide)).1]
    simp [errorReduction, relaxation, forLoop, loopBound, relaxCell, State.read, State.write,
      sampleState, List.range', Function.update_apply]
    norm_num
  exact ⟨hit ▸ h1, herr ▸ h2, h2⟩

/-! ## Index safety -/

/-- Claim C15 (index safety).  For every `n ≥ 3` and every interior pair
`(i, j)` with `1 ≤ i, j ≤ n - 2`: the offset stored to and the four offsets
loaded by the relaxation assignment lie below `n * n`, and the subtractions
`j - 1`, `i - 1` inside them do not wrap; these are exactly the offsets the
assignment uses; the map `(row, col) ↦ row * n + col` is injective on
`row, col < n`; and for `n = 1` and `n = 2` the loop ranges are empty, so the
relaxation changes nothing and the reduction returns `0`. -/
theorem C15_index_safety (n : Nat) (hn : 3 ≤ n) :
    (∀ i j, 1 ≤ i → i ≤ n - 2 → 1 ≤ j → j ≤ n - 2 →
        relaxCellWrite n i j < n * n
        ∧ (∀ k ∈ relaxCellReads n i j, k < n * n)
        ∧ 1 ≤ i * n + j ∧ 1 ≤ i)
    ∧ (∀ (i j : Nat) (s : State), relaxCell n i j s
        = s.write s.updatedMatrix (relaxCellWrite n i j)
            (0.25 * ((relaxCellReads n i j).map (s.read s.previousMatrix)).sum))
    ∧ (∀ r c r2 c2, r < n → c < n → r2 < n → c2 < n →
        relaxCellWrite n r c = relaxCellWrite n r2 c2 → r = r2 ∧ c = c2)
    ∧ (List.range' 1 (loopBound 1 - 1) = [] ∧ List.range' 1 (loopBound 2 - 1) = [])
    ∧ (∀ s : State, relaxation 1 s = s ∧ relaxation 2 s = s
        ∧ errorReduction 1 s = 0 ∧ errorReduction 2 s = 0) := by
  have hsq : (n - 1) * n + n = n * n := by
    obtain ⟨m, rfl⟩ : ∃ m, n = m + 1 := ⟨n - 1, by omega⟩
    rw [Nat.add_sub_cancel, Nat.succ_mul]
  refine ⟨?_, ?_, ?_, ⟨rfl, rfl⟩, fun s => ⟨rfl, rfl, rfl, rfl⟩⟩
  · intro i j hi1 hi2 hj1 hj2
    obtain ⟨hX1, hX2⟩ := edge_offsets n i hi1 hi2 hn
    have hup := row_above n i j hi1
    have hdown := row_below n i j
    refine ⟨?_, ?_, by omega, hi1⟩
    · unfold relaxCellWrite
      omega
    · intro k hk
      unfold relaxCellReads at hk
      simp only [List.mem_cons, List.mem_singleton, List.not_mem_nil, or_false] at hk
      rcases hk with rfl | rfl | rfl | rfl
      · omega
      · omega
      · omega
      · omega
  · intro i j s
    unfold relaxCell relaxCellWrite relaxCellReads
    simp only [List.map_cons, List.map_nil, List.sum_cons, List.sum_nil]
    congr 2
    ring
  · intro r c r2 c2 _ hc _ hc2 h
    exact (cell_eq_iff hc hc2).mp h

/-- Instance of claim C15 at `n = 3`: the centre cell is offset 4, its
neighbours are offsets 5, 3, 1 and 7, all below 9. -/
theorem C15_index_safety_witness :
    relaxCellWrite 3 1 1 = 4 ∧ relaxCellReads 3 1 1 = [5, 3, 1, 7]
      ∧ relaxCellWrite 3 1 1 < 3 * 3 ∧ 7 < 3 * 3 := by
  have h := (C15_index_safety 3 (by decide)).1 1 1 (by decide) (by decide) (by decide)
    (by decide)
  exact ⟨rfl, rfl, h.1, h.2.1 7 (by decide)⟩

/-! ## Tolerance of one or more -/

/-- With a tolerance of at least `1` the loop condition fails on entry. -/
theorem solve_skipped (n : Nat) (acc : ℚ) (hacc : 1 ≤ acc) (mx : Int) (a b : Buffer) :
    solve n acc mx a b = initialState n a b := by
  unfold solve
  apply whileLoop_of_not
  intro hc
  have h := hc.2.2
  rw [(initialState_fields n a b).2.2.1] at h
  exact absurd hacc (not_le.mpr h)

/-- Claim C18 (a tolerance of 1 or more skips the solve).  For every size,
every `maxIterations`, every prior content of the allocations and every
tolerance `≥ 1`: the run performs zero loop passes (the returned state is the
initial one), ends with `iterationCount = 0`, error `1` and no progress line,
and the saved grid is `currentMatrix` exactly as `initializeMatrix` left it,
so every interior cell still holds the prior content of the allocation. -/
theorem C18_tolerance_skips_solve (n : Nat) (acc : ℚ) (hacc : 1 ≤ acc) (mx : Int)
    (a b : Buffer) :
    solve n acc mx a b = (loopBody n)^[0] (initialState n a b)
    ∧ (solve n acc mx a b).iteration = 0
    ∧ (solve n acc mx a b).error = 1
    ∧ (solve n acc mx a b).log = []
    ∧ savedMatrix (solve n acc mx a b) = initializeMatrix a n
    ∧ (∀ r c, 1 ≤ r → r ≤ n - 2 → 1 ≤ c → c ≤ n - 2 →
        savedMatrix (solve n acc mx a b) (r * n + c) = a (r * n + c)) := by
  obtain ⟨-, hit, herr, hlog⟩ := initialState_fields n a b
  have heq := solve_skipped n acc hacc mx a b
  rw [heq]
  refine ⟨rfl, hit, herr, hlog, rfl, ?_⟩
  intro r c hr1 hr2 hc1 hc2
  exact initializeMatrix_interior n (by omega) a r c hr1 hr2 hc1 hc2

/-- Instance of claim C18: `n = 3`, tolerance `1`, default `maxIterations`,
the `currentMatrix` allocation holding `7` everywhere: no pass is run and the
saved centre cell is still `7`. -/
theorem C18_tolerance_skips_solve_witness :
    (solve 3 1 1000000 (fun _ => 7) (fun _ => 0)).iteration = 0
      ∧ savedMatrix (solve 3 1 1000000 (fun _ => 7) (fun _ => 0)) (1 * 3 + 1) = 7 := by
  obtain ⟨-, hit, -, -, -, hint⟩ :=
    C18_tolerance_skips_solve 3 1 (le_refl 1) 1000000 (fun _ => 7) (fun _ => 0)
  exact ⟨hit, hint 1 1 (by decide) (by decide) (by decide) (by decide)⟩

/-! ## The stopping measure does not grow -/

/-- If the two buffers agree on the four edges, the change made by the next
relaxation pass is bounded, in the maximum over the interior, by the change
made by the current one. -/
theorem pass_diff_le (n : Nat) (hn : 3 ≤ n) (s : State)
    (hne : s.previousMatrix ≠ s.updatedMatrix)
    (hbdy : ∀ r c, r < n → c < n → (r = 0 ∨ r = n - 1 ∨ c = 0 ∨ c = n - 1) →
      s.read s.updatedMatrix (r * n + c) = s.read s.previousMatrix (r * n + c)) :
    errorReduction n (relaxation n (loopBody n s)) ≤ errorReduction n (relaxation n s) := by
  obtain ⟨hread, hp, hu, -⟩ := loopBody_fields n s
  have hne2 : (loopBody n s).previousMatrix ≠ (loopBody n s).updatedMatrix := by
    rw [hp, hu]
    exact fun h => hne h.symm
  obtain ⟨tp, tu, -, -, -⟩ := relaxation_fields n s
  obtain ⟨tp2, tu2, -, -, -⟩ := relaxation_fields n (loopBody n s)
  have hprev : ∀ k, (relaxation n s).read s.previousMatrix k = s.read s.previousMatrix k :=
    (relaxation_spec n s hne).1.2.2.2.2.2
  -- every grid cell changed by at most the current error
  have hcell : ∀ r c, r < n → c < n →
      |(relaxation n s).read s.updatedMatrix (r * n + c)
        - (relaxation n s).read s.previousMatrix (r * n + c)| ≤ errorReduction n (relaxation n s) := by
    intro r c hr hc
    by_cases hb : r = 0 ∨ r = n - 1 ∨ c = 0 ∨ c = n - 1
    · rw [relaxation_frame n (by omega) s hne s.updatedMatrix (r * n + c)
        (boundary_ne_interior n r c hc hb), hprev, hbdy r c hr hc hb, sub_self, abs_zero]
      exact (errorReduction_spec n _).1
    · have h := errorReduction_ge n hn (relaxation n s) r c (by omega) (by omega) (by omega)
        (by omega)
      rw [tp, tu] at h
      exact h
  obtain ⟨r, c, hr1, hr2, hc1, hc2, hE⟩ := errorReduction_attained n hn (relaxation n (loopBody n s))
  rw [hE, tp2, tu2, hp, hu]
  have hnew := relaxation_interior n hn (loopBody n s) hne2 r c hr1 hr2 hc1 hc2
  rw [hu, hp, hread, hread, hread, hread] at hnew
  have hold0 := (relaxation_spec n (loopBody n s) hne2).1.2.2.2.2.2 (r * n + c)
  rw [hp, hread] at hold0
  have hold := relaxation_interior n hn s hne r c hr1 hr2 hc1 hc2
  rw [← hprev (r * n + (c + 1)), ← hprev (r * n + (c - 1)), ← hprev ((r - 1) * n + c),
    ← hprev ((r + 1) * n + c)] at hold
  rw [hnew, hold0, hold]
  have h1 := abs_le.mp (hcell r (c + 1) (by omega) (by omega))
  have h2 := abs_le.mp (hcell r (c - 1) (by omega) (by omega))
  have h3 := abs_le.mp (hcell (r - 1) c (by omega) (by omega))
  have h4 := abs_le.mp (hcell (r + 1) c (by omega) (by omega))
  rw [abs_le]
  constructor <;> linarith [h1.1, h1.2, h2.1, h2.2, h3.1, h3.2, h4.1, h4.2]

/-- On entry to the loop both buffers hold `edgeValue` on the four edges. -/
theorem initialState_boundary (n : Nat) (hn : 2 ≤ n) (a b : Buffer) (p : Ptr) (r c : Nat)
    (hr : r < n) (hc : c < n) (hbd : r = 0 ∨ r = n - 1 ∨ c = 0 ∨ c = n - 1) :
    (initialState n a b).read p (r * n + c) = edgeValue n r c := by
  cases p
  · exact initializeMatrix_boundary n hn a r c hr hc hbd
  · exact initializeMatrix_boundary n hn b r c hr hc hbd

/-- The error a check would compute does not grow from one pass to the next. -/
theorem checkError_succ_le (n : Nat) (hn : 3 ≤ n) (a b : Buffer) (k : Nat) (hk : 1 ≤ k) :
    checkError n a b (k + 1) ≤ checkError n a b k := by
  obtain ⟨k2, rfl⟩ : ∃ k2, k = k2 + 1 := ⟨k - 1, by omega⟩
  obtain ⟨hne, -, -, -⟩ := initialState_fields n a b
  unfold checkError
  rw [Nat.add_sub_cancel, Nat.add_sub_cancel, Function.iterate_succ_apply']
  apply pass_diff_le n hn _ (iterate_fields n _ hne k2).2
  intro r c hr hc hbd
  rw [iterate_boundary n (by omega) _ hne k2 _ r c hc hbd,
    iterate_boundary n (by omega) _ hne k2 _ r c hc hbd,
    initialState_boundary n (by omega) a b _ r c hr hc hbd,
    initialState_boundary n (by omega) a b _ r c hr hc hbd]

/-- From pass `k ≥ 1` on, the error a check would compute never exceeds its
value at pass `k`. -/
theorem checkError_antitone (n : Nat) (hn : 3 ≤ n) (a b : Buffer) (k : Nat) (hk : 1 ≤ k)
    (m : Nat) (hm : k ≤ m) : checkError n a b m ≤ checkError n a b k := by
  induction m with
  | zero => omega
  | succ m ih =>
    rcases Nat.eq_or_lt_of_le hm with heq | hlt
    · rw [heq]
    · exact le_trans (checkError_succ_le n hn a b m (by omega)) (ih (by omega))

/-- Claim C17 (the stopping measure never grows).  For every `n ≥ 3`, every
prior content of the allocations and every `k ≥ 1`: the maximum over the
interior of `|u_(k+1) - u_k|`, which is what the check of pass `k + 1` would
compute, is at most the maximum of `|u_k - u_(k-1)|`, what the check of pass
`k` would compute (`u_k` being the buffer stored into by pass `k`); hence the
value at any later pass is at most the value at pass `k`, and once it is
within a tolerance it stays within it. -/
theorem C17_stopping_measure_never_grows (n : Nat) (hn : 3 ≤ n) (a b : Buffer) (k : Nat)
    (hk : 1 ≤ k) :
    checkError n a b (k + 1) ≤ checkError n a b k
    ∧ (∀ m, k ≤ m → checkError n a b m ≤ checkError n a b k)
    ∧ (∀ acc : ℚ, checkError n a b k ≤ acc → ∀ m, k ≤ m → checkError n a b m ≤ acc) :=
  ⟨checkError_succ_le n hn a b k hk,
    fun m hm => checkError_antitone n hn a b k hk m hm,
    fun _ hacc m hm => le_trans (checkError_antitone n hn a b k hk m hm) hacc⟩

/-- The error the check of pass 1 would compute on a 4 x 4 grid whose
allocations held zeros. -/
theorem checkError_first : checkError 4 (fun _ => 0) (fun _ => 0) 1 = 40 / 3 := by
  simp [checkError, errorReduction, loopBody, convergenceCheck, swapPointers, relaxation,
    forLoop, loopBound, relaxCell, State.read, State.write, initialState, initializeMatrix,
    initializeEdgeStep, linearInterpolation, List.range', Function.update_apply]
  norm_num [abs_of_pos]

/-- The error the check of pass 2 would compute on the same grid. -/
theorem checkError_second : checkError 4 (fun _ => 0) (fun _ => 0) 2 = 5 := by
  simp [checkError, errorReduction, loopBody, convergenceCheck, swapPointers, relaxation,
    forLoop, loopBound, relaxCell, State.read, State.write, initialState, initializeMatrix,
    initializeEdgeStep, linearInterpolation, List.range', Function.update_apply]
  norm_num [abs_of_pos]

/-- Instance of claim C17 at `n = 4`, `k = 1`, zero allocations: the measure
goes from `40/3` at pass 1 to `5` at pass 2. -/
theorem C17_stopping_measure_never_grows_witness :
    checkError 4 (fun _ => 0) (fun _ => 0) (1 + 1) ≤ checkError 4 (fun _ => 0) (fun _ => 0) 1
      ∧ checkError 4 (fun _ => 0) (fun _ => 0) 1 = 40 / 3
      ∧ checkError 4 (fun _ => 0) (fun _ => 0) 2 = 5 :=
  ⟨(C17_stopping_measure_never_grows 4 (by decide) (fun _ => 0) (fun _ => 0) 1 (le_refl 1)).1,
    checkError_first, checkError_second⟩

/-! ## The linear grid -/

theorem linearGrid_cell (n r c : Nat) (hc : c < n) :
    linearGrid n (r * n + c) = 10 + 10 * ((r : ℚ) + (c : ℚ)) / ((n : ℚ) - 1) := by
  unfold linearGrid
  rw [cell_div hc, cell_mod hc]

/-- On the four edges the linear grid is `edgeValue`. -/
theorem linearGrid_boundary (n : Nat) (hn : 2 ≤ n) (r c : Nat) (hc : c < n)
    (hbd : r = 0 ∨ r = n - 1 ∨ c = 0 ∨ c = n - 1) :
    linearGrid n (r * n + c) = edgeValue n r c := by
  have hcast : ((n - 1 : ℕ) : ℚ) = (n : ℚ) - 1 := by
    rw [Nat.cast_sub (by omega)]
    norm_num
  have hne1 : ((n : ℚ) - 1) ≠ 0 := by
    have : (2 : ℚ) ≤ (n : ℚ) := by exact_mod_cast hn
    linarith
  rw [linearGrid_cell n r c hc]
  unfold edgeValue
  by_cases h0 : r = 0
  · subst h0
    rw [if_pos rfl]
    push_cast
    ring
  · rw [if_neg h0]
    by_cases h1 : r = n - 1
    · subst h1
      rw [if_pos rfl, hcast]
      field_simp
      ring
    · rw [if_neg h1]
      by_cases h2 : c = 0
      · subst h2
        rw [if_pos rfl]
        push_cast
        ring
      · have h3 : c = n - 1 := by omega
        subst h3
        rw [if_neg h2, hcast]
        field_simp
        ring

/-- Each interior value of the linear grid is the mean of its four
neighbours. -/
theorem linearGrid_harmonic (n : Nat) (hn : 3 ≤ n) (r c : Nat)
    (hr1 : 1 ≤ r) (_hr2 : r ≤ n - 2) (hc1 : 1 ≤ c) (hc2 : c ≤ n - 2) :
    linearGrid n (r * n + c)
      = (linearGrid n (r * n + (c + 1)) + linearGrid n (r * n + (c - 1))
          + linearGrid n ((r - 1) * n + c) + linearGrid n ((r + 1) * n + c)) / 4 := by
  have hne1 : ((n : ℚ) - 1) ≠ 0 := by
    have : (3 : ℚ) ≤ (n : ℚ) := by exact_mod_cast hn
    linarith
  rw [linearGrid_cell n r c (by omega), linearGrid_cell n r (c + 1) (by omega),
    linearGrid_cell n r (c - 1) (by omega), linearGrid_cell n (r - 1) c (by omega),
    linearGrid_cell n (r + 1) c (by omega), Nat.cast_sub hr1, Nat.cast_sub hc1]
  push_cast
  field_simp
  ring

/-- Discrete maximum principle: a function on the grid that vanishes on the
four edges and equals, at every interior cell, the mean of its four neighbours
is nowhere positive in the interior. -/
theorem max_principle (n : Nat) (hn : 3 ≤ n) (d : Nat → Nat → ℚ)
    (hbd : ∀ r c, r < n → c < n → (r = 0 ∨ r = n - 1 ∨ c = 0 ∨ c = n - 1) → d r c = 0)
    (hharm : ∀ r c, 1 ≤ r → r ≤ n - 2 → 1 ≤ c → c ≤ n - 2 →
      d r c = (d r (c + 1) + d r (c - 1) + d (r - 1) c + d (r + 1) c) / 4) :
    ∀ r c, 1 ≤ r → r ≤ n - 2 → 1 ≤ c → c ≤ n - 2 → d r c ≤ 0 := by
  have hS : (Finset.Icc 1 (n - 2) ×ˢ Finset.Icc 1 (n - 2)).Nonempty :=
    ⟨(1, 1), by simp; omega⟩
  obtain ⟨p0, hp0, hmax⟩ := Finset.exists_max_image
    (Finset.Icc 1 (n - 2) ×ˢ Finset.Icc 1 (n - 2)) (fun p : Nat × Nat => d p.1 p.2) hS
  have hmem : ∀ r c, 1 ≤ r → r ≤ n - 2 → 1 ≤ c → c ≤ n - 2 →
      (r, c) ∈ Finset.Icc 1 (n - 2) ×ˢ Finset.Icc 1 (n - 2) := by
    intro r c h1 h2 h3 h4
    simp only [Finset.mem_product, Finset.mem_Icc]
    exact ⟨⟨h1, h2⟩, h3, h4⟩
  have hp0' : (1 ≤ p0.1 ∧ p0.1 ≤ n - 2) ∧ 1 ≤ p0.2 ∧ p0.2 ≤ n - 2 := by
    simpa only [Finset.mem_product, Finset.mem_Icc] using hp0
  suffices hM : d p0.1 p0.2 ≤ 0 by
    intro r c h1 h2 h3 h4
    exact le_trans (hmax (r, c) (hmem r c h1 h2 h3 h4)) hM
  by_contra hpos
  have hM : 0 < d p0.1 p0.2 := not_le.mp hpos
  have hle : ∀ r c, r < n → c < n → d r c ≤ d p0.1 p0.2 := by
    intro r c hr hc
    by_cases hb : r = 0 ∨ r = n - 1 ∨ c = 0 ∨ c = n - 1
    · rw [hbd r c hr hc hb]
      exact le_of_lt hM
    · exact hmax (r, c) (hmem r c (by omega) (by omega) (by omega) (by omega))
  have hdesc : ∀ r, 1 ≤ r → r ≤ n - 2 → ∀ c, 1 ≤ c → c ≤ n - 2 →
      d r c = d p0.1 p0.2 → False := by
    intro r
    induction r with
    | zero =>
      intro h
      omega
    | succ r ih =>
      intro _ hr2 c hc1 hc2 heq
      have hh := hharm (r + 1) c (by omega) hr2 hc1 hc2
      rw [Nat.add_sub_cancel] at hh
      have n1 := hle (r + 1) (c + 1) (by omega) (by omega)
      have n2 := hle (r + 1) (c - 1) (by omega) (by omega)
      have n3 := hle r c (by omega) (by omega)
      have n4 := hle (r + 1 + 1) c (by omega) (by omega)
      have hup : d r c = d p0.1 p0.2 := by linarith
      rcases Nat.eq_zero_or_pos r with h0 | hpos2
      · subst h0
        rw [hbd 0 c (by omega) (by omega) (Or.inl rfl)] at hup
        linarith
      · exact ih hpos2 (by omega) c hc1 hc2 hup
  exact hdesc p0.1 hp0'.1.1 hp0'.1.2 p0.2 hp0'.2.1 hp0'.2.2 rfl

/-- A grid that has the edge values of the linear grid and is unchanged by
relaxation (each interior cell is the mean of its four neighbours) is the
linear grid on every cell. -/
theorem fixed_point_unique (n : Nat) (hn : 3 ≤ n) (h : Buffer)
    (hbd : ∀ r c, r < n → c < n → (r = 0 ∨ r = n - 1 ∨ c = 0 ∨ c = n - 1) →
      h (r * n + c) = linearGrid n (r * n + c))
    (hharm : ∀ r c, 1 ≤ r → r ≤ n - 2 → 1 ≤ c → c ≤ n - 2 →
      h (r * n + c) = (h (r * n + (c + 1)) + h (r * n + (c - 1)) + h ((r - 1) * n + c)
        + h ((r + 1) * n + c)) / 4) :
    ∀ r c, r < n → c < n → h (r * n + c) = linearGrid n (r * n + c) := by
  have hup := max_principle n hn (fun r c => h (r * n + c) - linearGrid n (r * n + c))
    (fun r c hr hc hb => by
      show h (r * n + c) - linearGrid n (r * n + c) = 0
      rw [hbd r c hr hc hb, sub_self])
    (fun r c h1 h2 h3 h4 => by
      show h (r * n + c) - linearGrid n (r * n + c) = _
      rw [hharm r c h1 h2 h3 h4, linearGrid_harmonic n hn r c h1 h2 h3 h4]
      ring)
  have hdown := max_principle n hn (fun r c => linearGrid n (r * n + c) - h (r * n + c))
    (fun r c hr hc hb => by
      show linearGrid n (r * n + c) - h (r * n + c) = 0
      rw [hbd r c hr hc hb, sub_self])
    (fun r c h1 h2 h3 h4 => by
      show linearGrid n (r * n + c) - h (r * n + c) = _
      rw [hharm r c h1 h2 h3 h4, linearGrid_harmonic n hn r c h1 h2 h3 h4]
      ring)
  intro r c hr hc
  by_cases hb : r = 0 ∨ r = n - 1 ∨ c = 0 ∨ c = n - 1
  · exact hbd r c hr hc hb
  · have h1 := hup r c (by omega) (by omega) (by omega) (by omega)
    have h2 := hdown r c (by omega) (by omega) (by omega) (by omega)
    have h1' : h (r * n + c) - linearGrid n (r * n + c) ≤ 0 := h1
    have h2' : linearGrid n (r * n + c) - h (r * n + c) ≤ 0 := h2
    linarith

/-- A relaxation pass on a state whose two buffers hold the linear grid leaves
both buffers holding it. -/
theorem linearGrid_fixed (n : Nat) (hn : 3 ≤ n) (s : State)
    (hne : s.previousMatrix ≠ s.updatedMatrix) (hall : ∀ p k, s.read p k = linearGrid n k) :
    ∀ p k, (relaxation n s).read p k = linearGrid n k := by
  intro p k
  have h := harmonic_iterate n hn (linearGrid n) (linearGrid_harmonic n hn) s hne hall 1 p k
  rw [← (loopBody_fields n s).1 p k]
  exact h

/-- Claim C16 (the initialised boundary is the restriction of a fixed point).
For every `n ≥ 2` the grid `g(r, c) = 10 + 10 * (r + c) / (n - 1)` agrees with
what `initializeMatrix` writes on every cell of the four edges; for `n ≥ 3`
each interior `g(r, c)` is the mean of its four neighbours, a relaxation pass
that reads `g` stores `g` in the interior, a pass on two buffers holding `g`
leaves both holding `g`, and `g` is the only grid with the initialised edges
that relaxation leaves unchanged: the steady state of the iteration is `g`. -/
theorem C16_linear_fixed_point (n : Nat) (hn : 2 ≤ n) (m : Buffer) :
    (∀ r c, r < n → c < n →
        linearGrid n (r * n + c) = 10 + 10 * ((r : ℚ) + (c : ℚ)) / ((n : ℚ) - 1))
    ∧ (∀ r c, r < n → c < n → (r = 0 ∨ r = n - 1 ∨ c = 0 ∨ c = n - 1) →
        (initializeMatrix m n) (r * n + c) = linearGrid n (r * n + c))
    ∧ (3 ≤ n →
        (∀ r c, 1 ≤ r → r ≤ n - 2 → 1 ≤ c → c ≤ n - 2 →
          linearGrid n (r * n + c)
            = (linearGrid n (r * n + (c + 1)) + linearGrid n (r * n + (c - 1))
                + linearGrid n ((r - 1) * n + c) + linearGrid n ((r + 1) * n + c)) / 4)
        ∧ (∀ s : State, s.previousMatrix ≠ s.updatedMatrix →
            (∀ k, s.read s.previousMatrix k = linearGrid n k) →
            ∀ r c, 1 ≤ r → r ≤ n - 2 → 1 ≤ c → c ≤ n - 2 →
              (relaxation n s).read s.updatedMatrix (r * n + c) = linearGrid n (r * n + c))
        ∧ (∀ s : State, s.previousMatrix ≠ s.updatedMatrix →
            (∀ p k, s.read p k = linearGrid n k) →
            ∀ p k, (relaxation n s).read p k = linearGrid n k)
        ∧ (∀ h : Buffer,
            (∀ r c, r < n → c < n → (r = 0 ∨ r = n - 1 ∨ c = 0 ∨ c = n - 1) →
              h (r * n + c) = (initializeMatrix m n) (r * n + c)) →
            (∀ r c, 1 ≤ r → r ≤ n - 2 → 1 ≤ c → c ≤ n - 2 →
              h (r * n + c) = (h (r * n + (c + 1)) + h (r * n + (c - 1))
                + h ((r - 1) * n + c) + h ((r + 1) * n + c)) / 4) →
            ∀ r c, r < n → c < n → h (r * n + c) = linearGrid n (r * n + c))) := by
  have hagree : ∀ r c, r < n → c < n → (r = 0 ∨ r = n - 1 ∨ c = 0 ∨ c = n - 1) →
      (initializeMatrix m n) (r * n + c) = linearGrid n (r * n + c) := by
    intro r c hr hc hb
    rw [initializeMatrix_boundary n hn m r c hr hc hb, linearGrid_boundary n hn r c hc hb]
  refine ⟨fun r c _ hc => linearGrid_cell n r c hc, hagree, ?_⟩
  intro hn3
  refine ⟨linearGrid_harmonic n hn3, ?_, ?_, ?_⟩
  · intro s hne hprev
    exact (harmonic_pass n hn3 (linearGrid n) (linearGrid_harmonic n hn3) s hne hprev).1
  · intro s hne hall
    exact linearGrid_fixed n hn3 s hne hall
  · intro h hbd hharm
    exact fixed_point_unique n hn3 h
      (fun r c hr hc hb => (hbd r c hr hc hb).trans (hagree r c hr hc hb)) hharm

/-- Instance of claim C16 at `n = 3`: the top midpoint written by
`initializeMatrix` is `g(0, 1) = 15`, and the centre `g(1, 1) = 20` is the
mean of `g(1, 2)`, `g(1, 0)`, `g(0, 1)`, `g(2, 1)`. -/
theorem C16_linear_fixed_point_witness :
    (initializeMatrix (fun _ => 0) 3) (0 * 3 + 1) = linearGrid 3 (0 * 3 + 1)
      ∧ linearGrid 3 (0 * 3 + 1) = 15
      ∧ linearGrid 3 (1 * 3 + 1)
        = (linearGrid 3 (1 * 3 + (1 + 1)) + linearGrid 3 (1 * 3 + (1 - 1))
            + linearGrid 3 ((1 - 1) * 3 + 1) + linearGrid 3 ((1 + 1) * 3 + 1)) / 4 := by
  obtain ⟨hval, hagree, hrest⟩ := C16_linear_fixed_point 3 (by decide) (fun _ => 0)
  refine ⟨hagree 0 1 (by decide) (by decide) (Or.inl rfl), ?_,
    (hrest (by decide)).1 1 1 (by decide) (by decide) (by decide) (by decide)⟩
  rw [hval 0 1 (by decide) (by decide)]
  norm_num

/-! ## A run that stops at a convergence check -/

/-- On a 3 x 3 grid the check of pass 2 would compute error `0`, whatever the
allocations held. -/
theorem checkError_three_second (a b : Buffer) : checkError 3 a b 2 = 0 := by
  simp [checkError, errorReduction, loopBody, convergenceCheck, swapPointers, relaxation,
    forLoop, loopBound, relaxCell, State.read, State.write, initialState, initializeMatrix,
    initializeEdgeStep, linearInterpolation, List.range', Function.update_apply]

/-- Instance of claim C5, as amended, in both of its branches, for `n = 3`,
tolerance `1/2` and zero allocations (the centre cell starts at `0` and is not
a fixed point).  With `maxIterations = 20000` the check of pass 10,000 computes
an error within the tolerance and 10,000 is the least such count, so the solve
stops there, before the cap.  With `maxIterations = 5` no check falls within
the cap, so the counter ends at 5. -/
theorem C5_stop_on_convergence_witness :
    (solve 3 (1 / 2) 20000 (fun _ => 0) (fun _ => 0)).iteration = 10000
      ∧ (solve 3 (1 / 2) 5 (fun _ => 0) (fun _ => 0)).iteration = 5 := by
  have hfirst := (C5_stop_on_convergence 3 (by decide) (1 / 2) (by norm_num) (by norm_num)
    20000 (by decide) (fun _ => 0) (fun _ => 0)).1
  have hnone := (C5_stop_on_convergence 3 (by decide) (1 / 2) (by norm_num) (by norm_num) 5
    (by decide) (fun _ => 0) (fun _ => 0)).2.1
  have hcap1 : min (20000 : Int).toNat 10000000 = 20000 := by decide
  have hcap2 : min (5 : Int).toNat 10000000 = 5 := by decide
  rw [hcap1] at hfirst
  rw [hcap2] at hnone
  have hle : checkError 3 (fun _ => 0) (fun _ => 0) 10000 ≤ 1 / 2 := by
    have h := checkError_antitone 3 (by decide) (fun _ => 0) (fun _ => 0) 2 (by decide) 10000
      (by decide)
    rw [checkError_three_second] at h
    exact le_trans h (by norm_num)
  constructor
  · apply hfirst
    refine ⟨⟨by decide, by decide, dvd_refl _, hle⟩, ?_⟩
    rintro k ⟨hk1, -, hk3, -⟩
    exact Nat.le_of_dvd hk1 hk3
  · apply hnone
    rintro ⟨k, hk1, hk2, hk3, -⟩
    omega

end Parall
